import Mathlib

/-!
Verification of the SQL static-review engine
(`server/lib/sql_rule_engine.py` and `server/lib/sqlStaticAnalyzer.py`).

Text is modelled as `List Char`.  Python regex passes are translated into
structurally recursive scanners over character lists; `\w` and `\s` are
modelled by their ASCII meaning, which is the character set the analysed
SQL scripts use.
-/

namespace SqlReview

/-- Characters matched by Python's `\s` and stripped by `str.strip()`
(ASCII model). -/
def isSpaceChar (c : Char) : Bool :=
  c = ' ' || c = '\t' || c = '\n' || c = '\r' || c = '\x0b' || c = '\x0c'

/-- Characters matched by Python's `\w` (ASCII model): letters, digits and
underscore. -/
def isWordChar (c : Char) : Bool := c.isAlphanum || c = '_'

/-- The single-quote character `'`. -/
def squote : Char := Char.ofNat 39

/-- The backtick character. -/
def btick : Char := Char.ofNat 96

/-- `_mask_span_with_spaces` applied to one character inside a masked span:
newlines are kept, every other character becomes a space. -/
def maskChar (c : Char) : Char := if c = '\n' then '\n' else ' '

/-- `startsWithL pat l` holds when `pat` is a prefix of `l`. -/
def startsWithL : List Char → List Char → Bool
  | [], _ => true
  | _ :: _, [] => false
  | p :: ps, c :: cs => p = c && startsWithL ps cs

/-- `hasSubL pat l` holds when `pat` occurs as a contiguous substring of `l`. -/
def hasSubL (pat : List Char) : List Char → Bool
  | [] => startsWithL pat []
  | c :: cs => startsWithL pat (c :: cs) || hasSubL pat cs

/-- Whether the text contains a block-comment terminator `*/`; this is the
condition for the non-greedy regex `/\*.*?\*/` to match from a given `/*`. -/
def hasClose : List Char → Bool
  | '*' :: '/' :: _ => true
  | _ :: rest => hasClose rest
  | [] => false

/-- Whether the text contains the character `q` (used to decide whether the
quoted-string regexes can find a closing quote). -/
def hasCharL (q : Char) : List Char → Bool
  | [] => false
  | c :: rest => c = q || hasCharL q rest

/-- Scanner for the pass `for match in BLOCK_COMMENT_RE.finditer(sql)` with
`BLOCK_COMMENT_RE = /\*.*?\*/` (DOTALL) followed by `_mask_span_with_spaces`
on every match.  The Boolean state records whether the scanner is inside a
comment span.  A `/*` only starts a span when a `*/` terminator exists
further on (the regex requires the terminator); the non-greedy `.*?` stops
at the first `*/`. -/
def maskBlockAux : List Char → Bool → List Char
  | [], _ => []
  | '/' :: '*' :: rest, false =>
      if hasClose rest then ' ' :: ' ' :: maskBlockAux rest true
      else '/' :: '*' :: maskBlockAux rest false
  | c :: rest, false => c :: maskBlockAux rest false
  | '*' :: '/' :: rest, true => ' ' :: ' ' :: maskBlockAux rest false
  | c :: rest, true => maskChar c :: maskBlockAux rest true

/-- Scanner for the pass masking `--.*?$` (MULTILINE): from a live `--`
everything up to (excluding) the next newline is replaced by spaces. -/
def maskLineAux : List Char → Bool → List Char
  | [], _ => []
  | '\n' :: rest, _ => '\n' :: maskLineAux rest false
  | '-' :: '-' :: rest, false => ' ' :: ' ' :: maskLineAux rest true
  | c :: rest, false => c :: maskLineAux rest false
  | _ :: rest, true => ' ' :: maskLineAux rest true

/-- Scanner for the quoted-string passes `'(?:''|[^'])*'` and
`"(?:""|[^"])*"` (DOTALL), including the regex backtracking behaviour:
a quote opens a string only when another quote occurs later; inside a
string, a doubled quote is an escape when a further quote still exists,
otherwise backtracking closes the string at the first quote of the pair. -/
def maskQAux (q : Char) : List Char → Bool → List Char
  | [], _ => []
  | c :: rest, false =>
      if c = q && hasCharL q rest then ' ' :: maskQAux q rest true
      else c :: maskQAux q rest false
  | c :: r :: rest', true =>
      if c = q then
        if r = q && hasCharL q rest' then ' ' :: ' ' :: maskQAux q rest' true
        else ' ' :: maskQAux q (r :: rest') false
      else maskChar c :: maskQAux q (r :: rest') true
  | [c], true => if c = q then [' '] else [maskChar c]

/-- `_mask_block_comments` of `sql_rule_engine.py`. -/
def maskBlockComments (s : List Char) : List Char := maskBlockAux s false

/-- The `--.*?$` masking pass. -/
def maskLineComments (s : List Char) : List Char := maskLineAux s false

/-- One quoted-string masking pass for quote character `q`. -/
def maskQuoted (q : Char) (s : List Char) : List Char := maskQAux q s false

/-- `_mask_comments_and_strings`, identical in both source files: block
comments, then line comments, then single-quoted strings, then
double-quoted strings, each pass rescanning the already partially masked
text. -/
def maskCommentsAndStrings (s : List Char) : List Char :=
  maskQuoted '"' (maskQuoted squote (maskLineComments (maskBlockComments s)))

/-- Relation between an original character and the character at the same
position after any number of masking passes: it is either unchanged, or it
was replaced by a space (and then it was not a newline). -/
def DimChar (a b : Char) : Prop := b = a ∨ (b = ' ' ∧ a ≠ '\n')

/-- Positionwise masking relation between a text and a (partially) masked
copy of it. -/
def Dims (s t : List Char) : Prop := List.Forall₂ DimChar s t

theorem dimChar_refl (a : Char) : DimChar a a := Or.inl rfl

theorem dimChar_maskChar (a : Char) : DimChar a (maskChar a) := by
  by_cases h : a = '\n'
  · exact Or.inl (by simp [maskChar, h])
  · exact Or.inr ⟨by simp [maskChar, h], h⟩

theorem dimChar_trans {a b c : Char} (h₁ : DimChar a b) (h₂ : DimChar b c) :
    DimChar a c := by
  rcases h₂ with h₂ | ⟨h₂, hb⟩
  · rcases h₁ with h₁ | ⟨h₁, ha⟩
    · exact Or.inl (h₂.trans h₁)
    · exact Or.inr ⟨h₂.trans h₁, ha⟩
  · rcases h₁ with h₁ | ⟨h₁, ha⟩
    · exact Or.inr ⟨h₂, fun hc => hb (h₁.trans hc)⟩
    · exact Or.inr ⟨h₂, ha⟩

theorem dims_refl (s : List Char) : Dims s s :=
  List.forall₂_same.2 fun a _ => dimChar_refl a

theorem dims_trans {s t u : List Char} (h₁ : Dims s t) (h₂ : Dims t u) :
    Dims s u := by
  induction h₁ generalizing u with
  | nil => cases h₂; exact List.Forall₂.nil
  | cons hab h ih =>
      cases h₂ with
      | cons hbc h' => exact List.Forall₂.cons (dimChar_trans hab hbc) (ih h')

theorem dims_map_maskChar (l : List Char) : Dims l (l.map maskChar) := by
  induction l with
  | nil => exact List.Forall₂.nil
  | cons a l ih => exact List.Forall₂.cons (dimChar_maskChar a) ih

theorem dims_append {a b c d : List Char} (h₁ : Dims a b) (h₂ : Dims c d) :
    Dims (a ++ c) (b ++ d) := List.rel_append h₁ h₂

theorem dims_maskBlockAux (l : List Char) (st : Bool) :
    Dims l (maskBlockAux l st) := by
  induction l, st using maskBlockAux.induct with
  | case1 _ => exact List.Forall₂.nil
  | case2 rest h ih =>
      rw [maskBlockAux, if_pos h]
      exact List.Forall₂.cons (Or.inr ⟨rfl, by decide⟩)
        (List.Forall₂.cons (Or.inr ⟨rfl, by decide⟩) ih)
  | case3 rest h ih =>
      rw [maskBlockAux, if_neg h]
      exact List.Forall₂.cons (dimChar_refl _) (List.Forall₂.cons (dimChar_refl _) ih)
  | case4 c rest h ih =>
      rw [maskBlockAux.eq_3 c rest h]
      exact List.Forall₂.cons (dimChar_refl _) ih
  | case5 rest ih =>
      rw [maskBlockAux]
      exact List.Forall₂.cons (Or.inr ⟨rfl, by decide⟩)
        (List.Forall₂.cons (Or.inr ⟨rfl, by decide⟩) ih)
  | case6 c rest h ih =>
      rw [maskBlockAux.eq_5 c rest h]
      exact List.Forall₂.cons (dimChar_maskChar c) ih

theorem dims_maskLineAux (l : List Char) (st : Bool) :
    Dims l (maskLineAux l st) := by
  induction l, st using maskLineAux.induct with
  | case1 _ => exact List.Forall₂.nil
  | case2 rest _ ih =>
      rw [maskLineAux]
      exact List.Forall₂.cons (dimChar_refl _) ih
  | case3 rest ih =>
      rw [maskLineAux]
      exact List.Forall₂.cons (Or.inr ⟨rfl, by decide⟩)
        (List.Forall₂.cons (Or.inr ⟨rfl, by decide⟩) ih)
  | case4 c rest h h' ih =>
      rw [maskLineAux.eq_4 c rest h h']
      exact List.Forall₂.cons (dimChar_refl _) ih
  | case5 c rest h ih =>
      rw [maskLineAux.eq_5 c rest h]
      exact List.Forall₂.cons (Or.inr ⟨rfl, h⟩) ih

theorem dims_maskQAux (q : Char) (hq : q ≠ '\n') (l : List Char) (st : Bool) :
    Dims l (maskQAux q l st) := by
  induction l, st using maskQAux.induct q with
  | case1 _ => exact List.Forall₂.nil
  | case2 c rest h ih =>
      rw [maskQAux, if_pos h]
      simp only [Bool.and_eq_true, decide_eq_true_eq] at h
      exact List.Forall₂.cons (Or.inr ⟨rfl, h.1 ▸ hq⟩) ih
  | case3 c rest h ih =>
      rw [maskQAux, if_neg h]
      exact List.Forall₂.cons (dimChar_refl _) ih
  | case4 c r h ih =>
      simp only [maskQAux]
      rw [if_pos trivial, if_pos h]
      simp only [Bool.and_eq_true, decide_eq_true_eq] at h
      exact List.Forall₂.cons (Or.inr ⟨rfl, hq⟩)
        (List.Forall₂.cons (Or.inr ⟨rfl, h.1 ▸ hq⟩) ih)
  | case5 c r h ih =>
      simp only [maskQAux] at ih ⊢
      rw [if_pos trivial, if_neg h]
      exact List.Forall₂.cons (Or.inr ⟨rfl, hq⟩) ih
  | case6 c r rest' hc ih =>
      rw [maskQAux, if_neg hc]
      exact List.Forall₂.cons (dimChar_maskChar c) ih
  | case7 =>
      simp only [maskQAux]
      rw [if_pos trivial]
      exact List.Forall₂.cons (Or.inr ⟨rfl, hq⟩) List.Forall₂.nil
  | case8 c hc =>
      rw [maskQAux, if_neg hc]
      exact List.Forall₂.cons (dimChar_maskChar c) List.Forall₂.nil

theorem dims_maskBlockComments (s : List Char) : Dims s (maskBlockComments s) :=
  dims_maskBlockAux s false

theorem dims_maskLineComments (s : List Char) : Dims s (maskLineComments s) :=
  dims_maskLineAux s false

theorem dims_maskQuoted (q : Char) (hq : q ≠ '\n') (s : List Char) :
    Dims s (maskQuoted q s) := dims_maskQAux q hq s false

theorem dims_maskCommentsAndStrings (s : List Char) :
    Dims s (maskCommentsAndStrings s) := by
  unfold maskCommentsAndStrings
  exact dims_trans (dims_maskBlockComments s)
    (dims_trans (dims_maskLineComments _)
      (dims_trans (dims_maskQuoted squote (by decide) _)
        (dims_maskQuoted '"' (by decide) _)))

theorem dims_get? {s t : List Char} (h : Dims s t) (i : Nat) :
    (s.get? i = none ∧ t.get? i = none) ∨
      ∃ a b, s.get? i = some a ∧ t.get? i = some b ∧ DimChar a b := by
  induction h generalizing i with
  | nil => exact Or.inl ⟨rfl, rfl⟩
  | cons hab htl ih =>
      cases i with
      | zero => exact Or.inr ⟨_, _, rfl, rfl, hab⟩
      | succ j => simpa using ih j

theorem dims_newline_iff {s t : List Char} (h : Dims s t) (i : Nat) :
    t.get? i = some '\n' ↔ s.get? i = some '\n' := by
  rcases dims_get? h i with ⟨h₁, h₂⟩ | ⟨a, b, h₁, h₂, hab⟩
  · rw [h₁, h₂]
  · rw [h₁, h₂]
    rcases hab with rfl | ⟨rfl, ha⟩
    · exact Iff.rfl
    · simp only [Option.some_inj]
      constructor
      · intro hsp; exact absurd hsp (by decide)
      · intro hsp; exact absurd hsp ha

theorem dims_length {s t : List Char} (h : Dims s t) : t.length = s.length :=
  (List.Forall₂.length_eq h).symm

theorem dims_head {s t : List Char} (h : Dims s t) :
    t.head? = s.head? ∨ t.head? = some ' ' := by
  cases h with
  | nil => exact Or.inl rfl
  | cons hab htl =>
      rcases hab with rfl | ⟨rfl, _⟩
      · exact Or.inl rfl
      · exact Or.inr rfl

theorem dims_head_eq {s t : List Char} (h : Dims s t) {c : Char}
    (hc : t.head? = some c) (hcs : c ≠ ' ') : s.head? = some c := by
  rcases dims_head h with h' | h'
  · exact h' ▸ hc
  · rw [h'] at hc
    exact absurd (Option.some_inj.1 hc).symm hcs

theorem dims_tail {s t : List Char} (h : Dims s t) : Dims s.tail t.tail := by
  cases h with
  | nil => exact List.Forall₂.nil
  | cons _ htl => exact htl

/-- Occurrence counter for a single character (models counting unmasked
quote characters). -/
def countQ (q : Char) : List Char → Nat
  | [] => 0
  | c :: rest => (if c = q then 1 else 0) + countQ q rest

/-- Whether the text contains a live `--` line-comment marker. -/
def hasDashDash : List Char → Bool
  | '-' :: '-' :: _ => true
  | _ :: rest => hasDashDash rest
  | [] => false

/-- Whether the text contains a `/*` opener that is followed by a `*/`
terminator, i.e. whether the block-comment regex still has a match. -/
def hasOpenClose : List Char → Bool
  | '/' :: '*' :: rest => hasClose rest || hasOpenClose rest
  | _ :: rest => hasOpenClose rest
  | [] => false

theorem hasClose_cons (c : Char) (l : List Char) :
    hasClose (c :: l) =
      ((decide (c = '*') && decide (l.head? = some '/')) || hasClose l) := by
  match c, l with
  | '*', '/' :: rest => simp [hasClose]
  | c, [] =>
      simp only [List.head?_nil]
      by_cases hc : c = '*' <;> simp [hasClose, hc]
  | c, d :: rest =>
      by_cases hc : c = '*' <;> by_cases hd : d = '/' <;>
        subst_vars <;> simp_all [hasClose]

theorem hasDashDash_cons (c : Char) (l : List Char) :
    hasDashDash (c :: l) =
      ((decide (c = '-') && decide (l.head? = some '-')) || hasDashDash l) := by
  match c, l with
  | '-', '-' :: rest => simp [hasDashDash]
  | c, [] =>
      simp only [List.head?_nil]
      by_cases hc : c = '-' <;> simp [hasDashDash, hc]
  | c, d :: rest =>
      by_cases hc : c = '-' <;> by_cases hd : d = '-' <;>
        subst_vars <;> simp_all [hasDashDash]

theorem hasOpenClose_cons (c : Char) (l : List Char) :
    hasOpenClose (c :: l) =
      ((decide (c = '/') && decide (l.head? = some '*') && hasClose l.tail)
        || hasOpenClose l) := by
  match c, l with
  | '/', '*' :: rest => simp [hasOpenClose]
  | c, [] =>
      simp only [List.head?_nil]
      by_cases hc : c = '/' <;> simp [hasOpenClose, hc]
  | c, d :: rest =>
      by_cases hc : c = '/' <;> by_cases hd : d = '*' <;>
        subst_vars <;> simp_all [hasOpenClose]

theorem dims_hasClose_false {s t : List Char} (h : Dims s t)
    (hs : hasClose s = false) : hasClose t = false := by
  induction h with
  | nil => rfl
  | @cons a b s' t' hab htl ih =>
      rw [hasClose_cons] at hs ⊢
      simp only [Bool.or_eq_false_iff, Bool.and_eq_false_iff] at hs ⊢
      refine ⟨?_, ih hs.2⟩
      by_cases hb : b = '*'
      · subst hb
        rcases hab with rfl | ⟨h1, _⟩
        · rcases hs.1 with h' | h'
          · simp at h'
          · right
            simp only [decide_eq_false_iff_not] at h' ⊢
            intro hhd
            exact h' (dims_head_eq htl hhd (by decide))
        · exact absurd h1.symm (by decide)
      · left; simp [hb]

theorem dims_hasDashDash_false {s t : List Char} (h : Dims s t)
    (hs : hasDashDash s = false) : hasDashDash t = false := by
  induction h with
  | nil => rfl
  | @cons a b s' t' hab htl ih =>
      rw [hasDashDash_cons] at hs ⊢
      simp only [Bool.or_eq_false_iff, Bool.and_eq_false_iff] at hs ⊢
      refine ⟨?_, ih hs.2⟩
      by_cases hb : b = '-'
      · subst hb
        rcases hab with rfl | ⟨h1, _⟩
        · rcases hs.1 with h' | h'
          · simp at h'
          · right
            simp only [decide_eq_false_iff_not] at h' ⊢
            intro hhd
            exact h' (dims_head_eq htl hhd (by decide))
        · exact absurd h1.symm (by decide)
      · left; simp [hb]

theorem dims_hasOpenClose_false {s t : List Char} (h : Dims s t)
    (hs : hasOpenClose s = false) : hasOpenClose t = false := by
  induction h with
  | nil => rfl
  | @cons a b s' t' hab htl ih =>
      rw [hasOpenClose_cons] at hs ⊢
      simp only [Bool.or_eq_false_iff, Bool.and_eq_false_iff] at hs ⊢
      refine ⟨?_, ih hs.2⟩
      by_cases hb : b = '/'
      · subst hb
        rcases hab with rfl | ⟨h1, _⟩
        · by_cases hhd : t'.head? = some '*'
          · have hshd : s'.head? = some '*' := dims_head_eq htl hhd (by decide)
            rcases hs.1 with (h' | h') | h'
            · simp at h'
            · simp only [decide_eq_false_iff_not] at h'
              exact absurd hshd h'
            · right
              exact dims_hasClose_false (dims_tail htl) h'
          · left; right; simp [hhd]
        · exact absurd h1.symm (by decide)
      · left; left; simp [hb]

theorem dims_countQ_le (q : Char) (hq : q ≠ ' ') {s t : List Char}
    (h : Dims s t) : countQ q t ≤ countQ q s := by
  induction h with
  | nil => exact Nat.le_refl _
  | @cons a b s' t' hab htl ih =>
      simp only [countQ]
      rcases hab with rfl | ⟨rfl, _⟩
      · exact Nat.add_le_add_left ih _
      · rw [if_neg (fun h => hq h.symm)]
        simp only [Nat.zero_add]
        exact ih.trans (Nat.le_add_left _ _)

theorem hasCharL_false_countQ {q : Char} {l : List Char}
    (h : hasCharL q l = false) : countQ q l = 0 := by
  induction l with
  | nil => rfl
  | cons c rest ih =>
      simp only [hasCharL, Bool.or_eq_false_iff, decide_eq_false_iff_not] at h
      simp only [countQ, if_neg h.1, ih h.2]

theorem hasCharL_true_countQ {q : Char} {l : List Char}
    (h : hasCharL q l = true) : 1 ≤ countQ q l := by
  induction l with
  | nil => simp [hasCharL] at h
  | cons c rest ih =>
      simp only [hasCharL, Bool.or_eq_true, decide_eq_true_eq] at h
      simp only [countQ]
      rcases h with rfl | h
      · simp
      · exact (ih h).trans (Nat.le_add_left _ _)

theorem countQ_cons_ne {q c : Char} (h : ¬ c = q) (l : List Char) :
    countQ q (c :: l) = countQ q l := by
  simp [countQ, h]

theorem countQ_space (q : Char) (hq : q ≠ ' ') (l : List Char) :
    countQ q (' ' :: l) = countQ q l :=
  countQ_cons_ne (fun hh => hq hh.symm) l

theorem maskLineAux_no_dashdash (l : List Char) (st : Bool) :
    hasDashDash (maskLineAux l st) = false := by
  induction l, st using maskLineAux.induct with
  | case1 _ => rfl
  | case2 rest _ ih =>
      rw [maskLineAux, hasDashDash_cons]
      simp [ih]
  | case3 rest ih =>
      rw [maskLineAux, hasDashDash_cons, hasDashDash_cons]
      simp [ih]
  | case4 c rest h h' ih =>
      rw [maskLineAux.eq_4 c rest h h', hasDashDash_cons]
      simp only [ih, Bool.or_false]
      by_cases hc : c = '-'
      · subst hc
        cases rest with
        | nil => simp [maskLineAux]
        | cons d r =>
            by_cases hd : d = '-'
            · subst hd
              exact (h' r rfl rfl).elim
            · rcases dims_head (dims_maskLineAux (d :: r) false) with hh | hh <;>
                simp [hh, hd]
      · simp [hc]
  | case5 c rest h ih =>
      rw [maskLineAux.eq_5 c rest h, hasDashDash_cons]
      simp [ih]

theorem maskBlockAux_no_openclose (l : List Char) (st : Bool) :
    hasOpenClose (maskBlockAux l st) = false := by
  induction l, st using maskBlockAux.induct with
  | case1 _ => rfl
  | case2 rest h ih =>
      rw [maskBlockAux, if_pos h, hasOpenClose_cons, hasOpenClose_cons]
      simp [ih]
  | case3 rest h ih =>
      rw [maskBlockAux, if_neg h]
      have hcf : hasClose (maskBlockAux rest false) = false :=
        dims_hasClose_false (dims_maskBlockAux rest false) (by simpa using h)
      rw [hasOpenClose_cons, hasOpenClose_cons]
      simp [ih, hcf]
  | case4 c rest h ih =>
      rw [maskBlockAux.eq_3 c rest h, hasOpenClose_cons]
      simp only [ih, Bool.or_false]
      by_cases hc : c = '/'
      · subst hc
        cases rest with
        | nil => simp [maskBlockAux]
        | cons d r =>
            by_cases hd : d = '*'
            · subst hd
              exact (h r rfl rfl).elim
            · rcases dims_head (dims_maskBlockAux (d :: r) false) with hh | hh <;>
                simp [hh, hd]
      · simp [hc]
  | case5 rest ih =>
      rw [maskBlockAux, hasOpenClose_cons, hasOpenClose_cons]
      simp [ih]
  | case6 c rest h ih =>
      rw [maskBlockAux.eq_5 c rest h, hasOpenClose_cons]
      simp only [ih, Bool.or_false]
      by_cases hc : c = '\n' <;> simp [maskChar, hc]

theorem maskQAux_countQ_le_one (q : Char) (hq : q ≠ ' ') (hqn : q ≠ '\n')
    (l : List Char) (st : Bool) : countQ q (maskQAux q l st) ≤ 1 := by
  induction l, st using maskQAux.induct q with
  | case1 _ => exact Nat.zero_le _
  | case2 c rest h ih =>
      rw [maskQAux, if_pos h, countQ_space q hq]
      exact ih
  | case3 c rest h ih =>
      rw [maskQAux, if_neg h]
      by_cases hc : c = q
      · subst hc
        have hch : hasCharL c rest = false := by
          by_cases hr : hasCharL c rest = true
          · exact absurd (by simp [hr]) h
          · simpa using hr
        have h0 : countQ c (maskQAux c rest false) = 0 := by
          have hle := dims_countQ_le c hq (dims_maskQAux c hqn rest false)
          have h0' : countQ c rest = 0 := hasCharL_false_countQ hch
          omega
        simp [countQ, h0]
      · rw [countQ_cons_ne hc]
        exact ih
  | case4 c r h ih =>
      simp only [maskQAux]
      rw [if_pos trivial, if_pos h, countQ_space q hq, countQ_space q hq]
      exact ih
  | case5 c r h ih =>
      simp only [maskQAux] at ih ⊢
      rw [if_pos trivial, if_neg h, countQ_space q hq]
      exact ih
  | case6 c r rest' hc ih =>
      rw [maskQAux, if_neg hc]
      have hmq : ¬ (maskChar c = q) := by
        unfold maskChar
        by_cases hcn : c = '\n'
        · rw [if_pos hcn]; exact fun hh => hqn hh.symm
        · rw [if_neg hcn]; exact fun hh => hq hh.symm
      rw [countQ_cons_ne hmq]
      exact ih
  | case7 =>
      simp only [maskQAux]
      rw [if_pos trivial, countQ_space q hq]
      exact Nat.zero_le _
  | case8 c hc =>
      rw [maskQAux, if_neg hc]
      have hmq : ¬ (maskChar c = q) := by
        unfold maskChar
        by_cases hcn : c = '\n'
        · rw [if_pos hcn]; exact fun hh => hqn hh.symm
        · rw [if_neg hcn]; exact fun hh => hq hh.symm
      rw [countQ_cons_ne hmq]
      exact Nat.zero_le _

theorem maskBlockAux_id (l : List Char) (st : Bool) :
    st = false → hasOpenClose l = false → maskBlockAux l st = l := by
  induction l, st using maskBlockAux.induct with
  | case1 _ => intro _ _; rfl
  | case2 rest hcl ih =>
      intro _ h
      exfalso
      rw [hasOpenClose_cons] at h
      simp [hcl] at h
  | case3 rest hcl ih =>
      intro _ h
      rw [maskBlockAux, if_neg hcl]
      have hrest : hasOpenClose rest = false := by
        rw [hasOpenClose_cons, hasOpenClose_cons] at h
        simp only [Bool.or_eq_false_iff] at h
        exact h.2.2
      rw [ih rfl hrest]
  | case4 c rest h ih =>
      intro _ hcl
      rw [maskBlockAux.eq_3 c rest h]
      have hrest : hasOpenClose rest = false := by
        rw [hasOpenClose_cons] at hcl
        simp only [Bool.or_eq_false_iff] at hcl
        exact hcl.2
      rw [ih rfl hrest]
  | case5 rest ih => intro hst; exact absurd hst (by decide)
  | case6 c rest h ih => intro hst; exact absurd hst (by decide)

theorem maskLineAux_id (l : List Char) (st : Bool) :
    st = false → hasDashDash l = false → maskLineAux l st = l := by
  induction l, st using maskLineAux.induct with
  | case1 _ => intro _ _; rfl
  | case2 rest _ ih =>
      intro _ h
      rw [maskLineAux]
      have hrest : hasDashDash rest = false := by
        rw [hasDashDash_cons] at h
        simp only [Bool.or_eq_false_iff] at h
        exact h.2
      rw [ih rfl hrest]
  | case3 rest ih =>
      intro _ h
      exfalso
      simp [hasDashDash] at h
  | case4 c rest h h' ih =>
      intro _ hdd
      rw [maskLineAux.eq_4 c rest h h']
      have hrest : hasDashDash rest = false := by
        rw [hasDashDash_cons] at hdd
        simp only [Bool.or_eq_false_iff] at hdd
        exact hdd.2
      rw [ih rfl hrest]
  | case5 c rest h ih => intro hst; exact absurd hst (by decide)

theorem maskQAux_id (q : Char) (l : List Char) (st : Bool) :
    st = false → countQ q l ≤ 1 → maskQAux q l st = l := by
  induction l, st using maskQAux.induct q with
  | case1 _ => intro _ _; rfl
  | case2 c rest h ih =>
      intro _ hcnt
      exfalso
      simp only [Bool.and_eq_true, decide_eq_true_eq] at h
      have h1 := hasCharL_true_countQ h.2
      simp only [countQ, if_pos h.1] at hcnt
      omega
  | case3 c rest h ih =>
      intro _ hcnt
      rw [maskQAux, if_neg h]
      have hrest : countQ q rest ≤ 1 := by
        by_cases hc : c = q
        · simp only [countQ, if_pos hc] at hcnt; omega
        · simp only [countQ, if_neg hc] at hcnt; omega
      rw [ih rfl hrest]
  | case4 c r h ih => intro hst; exact absurd hst (by decide)
  | case5 c r h ih => intro hst; exact absurd hst (by decide)
  | case6 c r rest' hc ih => intro hst; exact absurd hst (by decide)
  | case7 => intro hst; exact absurd hst (by decide)
  | case8 c hc => intro hst; exact absurd hst (by decide)

theorem hasOpenClose_false_of_hasClose_false {l : List Char}
    (h : hasClose l = false) : hasOpenClose l = false := by
  induction l with
  | nil => rfl
  | cons c rest ih =>
      rw [hasClose_cons] at h
      simp only [Bool.or_eq_false_iff] at h
      rw [hasOpenClose_cons]
      simp only [Bool.or_eq_false_iff]
      refine ⟨?_, ih h.2⟩
      simp only [Bool.and_eq_false_iff]
      right
      cases rest with
      | nil => rfl
      | cons d r =>
          rw [hasClose_cons] at h
          simp only [Bool.or_eq_false_iff] at h
          exact h.2.2

/-- Identity of the full masker on text with no live markers: no block
comment opener-terminator pair, no `--`, and at most one quote of each
kind. -/
theorem mask_id_of_clean (s : List Char) (h1 : hasOpenClose s = false)
    (h2 : hasDashDash s = false) (h3 : countQ squote s ≤ 1)
    (h4 : countQ '"' s ≤ 1) : maskCommentsAndStrings s = s := by
  unfold maskCommentsAndStrings maskBlockComments maskLineComments maskQuoted
  rw [maskBlockAux_id s false rfl h1, maskLineAux_id s false rfl h2,
      maskQAux_id squote s false rfl h3, maskQAux_id '"' s false rfl h4]

/-- C1: for every input string, `_mask_comments_and_strings` (defined
identically in `sql_rule_engine.py` and `sqlStaticAnalyzer.py`) returns a
masked text of the same length, and a position holds a newline in the
masked text exactly when it holds a newline in the original, so offsets
into the masked text are valid offsets into the original with identical
line/column positions. -/
theorem c1_mask_preserves_length_and_newlines (s : List Char) :
    (maskCommentsAndStrings s).length = s.length ∧
      ∀ i : Nat,
        ((maskCommentsAndStrings s).get? i = some '\n' ↔ s.get? i = some '\n') :=
  ⟨dims_length (dims_maskCommentsAndStrings s),
   fun i => dims_newline_iff (dims_maskCommentsAndStrings s) i⟩

/-- C3 counterexample: the claim states that an unterminated block comment
or string is masked from its opening delimiter to end-of-text (every
non-newline character replaced by a space).  In fact the masking regexes
require a closing delimiter, so the unterminated constructs below are left
entirely unmasked: position 3 of the first input still holds `X`, not a
space. -/
theorem c3_counterexample :
    maskCommentsAndStrings ['/', '*', ' ', 'X'] = ['/', '*', ' ', 'X'] ∧
      (maskCommentsAndStrings ['/', '*', ' ', 'X']).get? 3 ≠ some ' ' ∧
      maskCommentsAndStrings [squote, 'A', 'B'] = [squote, 'A', 'B'] ∧
      maskCommentsAndStrings ['"', 'A', 'B'] = ['"', 'A', 'B'] :=
  ⟨by decide, by decide, by decide, by decide⟩

/-- C3 amended: on an input containing an unterminated construct the masker
raises no error (it is a total function), but it does not mask to
end-of-text; when the input has no block-comment terminator `*/`, no `--`
marker and at most one quote of each kind (so every comment or string
opener present is unterminated), the masker leaves the input completely
unchanged. -/
theorem c3_amended_unterminated_unmasked (s : List Char)
    (hnc : hasClose s = false) (hnd : hasDashDash s = false)
    (hsq : countQ squote s ≤ 1) (hdq : countQ '"' s ≤ 1) :
    maskCommentsAndStrings s = s :=
  mask_id_of_clean s (hasOpenClose_false_of_hasClose_false hnc) hnd hsq hdq

/-- Witness for the amended C3 at the concrete unterminated input
`/* 'X` (an unterminated block comment containing an unterminated
string). -/
theorem c3_amended_unterminated_unmasked_witness :
    maskCommentsAndStrings ['/', '*', ' ', squote, 'X'] =
      ['/', '*', ' ', squote, 'X'] :=
  c3_amended_unterminated_unmasked ['/', '*', ' ', squote, 'X']
    (by decide) (by decide) (by decide) (by decide)

/-- C10: masking is idempotent, and its output contains no live `--`
marker, no complete `/* ... */` pair, at most one unmasked single quote
and at most one unmasked double quote, so applying the masker a second
time changes nothing. -/
theorem c10_masking_idempotent (s : List Char) :
    maskCommentsAndStrings (maskCommentsAndStrings s) = maskCommentsAndStrings s ∧
      hasDashDash (maskCommentsAndStrings s) = false ∧
      hasOpenClose (maskCommentsAndStrings s) = false ∧
      countQ squote (maskCommentsAndStrings s) ≤ 1 ∧
      countQ '"' (maskCommentsAndStrings s) ≤ 1 := by
  have hOC : hasOpenClose (maskCommentsAndStrings s) = false := by
    unfold maskCommentsAndStrings
    exact dims_hasOpenClose_false (dims_maskQuoted '"' (by decide) _)
      (dims_hasOpenClose_false (dims_maskQuoted squote (by decide) _)
        (dims_hasOpenClose_false (dims_maskLineComments _)
          (maskBlockAux_no_openclose s false)))
  have hDD : hasDashDash (maskCommentsAndStrings s) = false := by
    unfold maskCommentsAndStrings
    exact dims_hasDashDash_false (dims_maskQuoted '"' (by decide) _)
      (dims_hasDashDash_false (dims_maskQuoted squote (by decide) _)
        (maskLineAux_no_dashdash _ false))
  have hSQ : countQ squote (maskCommentsAndStrings s) ≤ 1 := by
    unfold maskCommentsAndStrings
    exact (dims_countQ_le squote (by decide) (dims_maskQuoted '"' (by decide) _)).trans
      (maskQAux_countQ_le_one squote (by decide) (by decide) _ false)
  have hDQ : countQ '"' (maskCommentsAndStrings s) ≤ 1 := by
    unfold maskCommentsAndStrings
    exact maskQAux_countQ_le_one '"' (by decide) (by decide) _ false
  exact ⟨mask_id_of_clean _ hOC hDD hSQ hDQ, hDD, hOC, hSQ, hDQ⟩

/-- `_idx_to_linecol`, first component: 1-based line of a 0-based offset,
counting newlines in `sql[0:idx]`. -/
def idxToLine (sql : List Char) (idx : Nat) : Nat :=
  countQ '\n' (sql.take idx) + 1

/-- `_idx_to_linecol`, second component: 1-based column, the distance to
the newline preceding the offset. -/
def idxToCol (sql : List Char) (idx : Nat) : Nat :=
  ((sql.take idx).reverse.takeWhile (fun c => c ≠ '\n')).length + 1

/-- Python `str.rstrip` for a single given character. -/
def rstripChar (x : Char) (l : List Char) : List Char :=
  (l.reverse.dropWhile (fun c => c = x)).reverse

/-- `_line_snippet`: the full line containing the offset, with trailing
carriage returns removed, truncated to 240 characters plus an ellipsis. -/
def lineSnippet (sql : List Char) (idx : Nat) : List Char :=
  let pre := ((sql.take idx).reverse.takeWhile (fun c => c ≠ '\n')).reverse
  let post := (sql.drop idx).takeWhile (fun c => c ≠ '\n')
  let snip := rstripChar '\r' (pre ++ post)
  if snip.length > 240 then snip.take 240 ++ ['.', '.', '.'] else snip

/-- One `_add_issue` call in `sql_rule_engine.py`: the rule id, message and
absolute offset, plus the optional `evidence`, `severity`, `obj_name` and
`recommendation` keyword arguments. -/
structure Event where
  rule : String
  msg : List Char
  pos : Nat
  evidence : List Char := []
  severity : String := "ERROR"
  obj : List Char := []
  recomm : List Char := []
deriving DecidableEq, Repr

/-- One aggregated issue record of `sql_rule_engine._add_issue`: parallel
arrays plus the single-value legacy fields. -/
structure Record where
  rule_id : String
  rule_ids : List String
  severity : String
  severity_levels : List String
  message : List Char
  issues : List (List Char)
  obj : List Char
  line : Nat
  column : List Nat
  snippet : List Char
  evidence : List Char
  evidence_list : List (List Char)
  recommendation : List (List Char)
  fixed_code : List Char
deriving DecidableEq, Repr

/-- `evidence or snippet` in `_add_issue`. -/
def resolvedEvidence (sql : List Char) (e : Event) : List Char :=
  if e.evidence = [] then lineSnippet sql e.pos else e.evidence

/-- Line number on which an event is reported. -/
def evLine (sql : List Char) (e : Event) : Nat := idxToLine sql e.pos

/-- Column number on which an event is reported. -/
def evCol (sql : List Char) (e : Event) : Nat := idxToCol sql e.pos

/-- The record created by `_add_issue` for the first issue seen on a
line. -/
def mkRecord (sql : List Char) (e : Event) : Record where
  rule_id := e.rule
  rule_ids := [e.rule]
  severity := e.severity
  severity_levels := [e.severity]
  message := e.msg
  issues := [e.msg]
  obj := e.obj
  line := evLine sql e
  column := [evCol sql e]
  snippet := lineSnippet sql e.pos
  evidence := resolvedEvidence sql e
  evidence_list := [resolvedEvidence sql e]
  recommendation := [e.recomm]
  fixed_code := []

/-- The update performed by `_add_issue` on the existing record of the
event's line: every parallel array is appended to, and the single-value
legacy fields are refreshed from index 0 of the arrays. -/
def appendEvent (sql : List Char) (r : Record) (e : Event) : Record :=
  { r with
    rule_ids := r.rule_ids ++ [e.rule],
    severity_levels := r.severity_levels ++ [e.severity],
    column := r.column ++ [evCol sql e],
    issues := r.issues ++ [e.msg],
    recommendation := r.recommendation ++ [e.recomm],
    evidence_list := r.evidence_list ++ [resolvedEvidence sql e],
    rule_id := (r.rule_ids ++ [e.rule]).headD "",
    severity := (r.severity_levels ++ [e.severity]).headD "",
    message := (r.issues ++ [e.msg]).headD [],
    evidence := (r.evidence_list ++ [resolvedEvidence sql e]).headD [] }

/-- `_add_issue`: update the first record carrying the event's line, or
append a fresh record at the end of the list. -/
def addIssue (sql : List Char) : List Record → Event → List Record
  | [], e => [mkRecord sql e]
  | r :: rs, e =>
      if r.line = evLine sql e then appendEvent sql r e :: rs
      else r :: addIssue sql rs e

/-- Folding a detector-emitted event stream through `_add_issue`, starting
from an empty issue list. -/
def aggregateIssues (sql : List Char) (evs : List Event) : List Record :=
  evs.foldl (addIssue sql) []

/-- The events of a stream that fall on a given line. -/
def lineEvents (sql : List Char) (n : Nat) (evs : List Event) : List Event :=
  evs.filter (fun e => evLine sql e = n)

/-- Content of one aggregated record: its parallel arrays are exactly the
projections, in order, of the events of its line, and every legacy
single-value field equals the first element of its array. -/
def RecordAgg (sql : List Char) (evs : List Event) (r : Record) : Prop :=
  r.rule_ids = (lineEvents sql r.line evs).map (·.rule) ∧
  r.severity_levels = (lineEvents sql r.line evs).map (·.severity) ∧
  r.issues = (lineEvents sql r.line evs).map (·.msg) ∧
  r.column = (lineEvents sql r.line evs).map (evCol sql) ∧
  r.evidence_list = (lineEvents sql r.line evs).map (resolvedEvidence sql) ∧
  r.recommendation = (lineEvents sql r.line evs).map (·.recomm) ∧
  r.rule_id = r.rule_ids.headD "" ∧
  r.severity = r.severity_levels.headD "" ∧
  r.message = r.issues.headD [] ∧
  r.evidence = r.evidence_list.headD []

/-- Global aggregation invariant tying an issue list to the event stream
that produced it. -/
def AggInv (sql : List Char) (evs : List Event) (out : List Record) : Prop :=
  (out.map (·.line)).Nodup ∧
  (∀ r ∈ out, ∃ e ∈ evs, evLine sql e = r.line) ∧
  (∀ e ∈ evs, ∃ r ∈ out, r.line = evLine sql e) ∧
  (∀ r ∈ out, RecordAgg sql evs r)

theorem appendEvent_line (sql : List Char) (r : Record) (e : Event) :
    (appendEvent sql r e).line = r.line := rfl

theorem mkRecord_line (sql : List Char) (e : Event) :
    (mkRecord sql e).line = evLine sql e := rfl

theorem addIssue_all_ne (sql : List Char) (e : Event) :
    ∀ out : List Record, (∀ r ∈ out, r.line ≠ evLine sql e) →
      addIssue sql out e = out ++ [mkRecord sql e] := by
  intro out
  induction out with
  | nil => intro _; rfl
  | cons r rs ih =>
      intro h
      simp only [addIssue]
      rw [if_neg (h r (by simp)), ih (fun r' hr' => h r' (by simp [hr']))]
      simp

theorem addIssue_update (sql : List Char) (e : Event) :
    ∀ pre (r0 : Record) post, r0.line = evLine sql e →
      (∀ r ∈ pre, r.line ≠ evLine sql e) →
      addIssue sql (pre ++ r0 :: post) e = pre ++ appendEvent sql r0 e :: post := by
  intro pre
  induction pre with
  | nil =>
      intro r0 post h0 _
      simp [addIssue, if_pos h0]
  | cons r rs ih =>
      intro r0 post h0 h
      simp only [List.cons_append, addIssue]
      rw [if_neg (h r (by simp))]
      simp only [List.append_eq]
      rw [ih r0 post h0 (fun r' hr' => h r' (by simp [hr']))]

theorem first_line_split (n : Nat) :
    ∀ out : List Record, (∃ r ∈ out, r.line = n) →
      ∃ pre r0 post, out = pre ++ r0 :: post ∧ r0.line = n ∧
        ∀ r ∈ pre, r.line ≠ n := by
  intro out
  induction out with
  | nil => rintro ⟨r, hr, _⟩; cases hr
  | cons r rs ih =>
      rintro ⟨r', hr', hline⟩
      by_cases h : r.line = n
      · exact ⟨[], r, rs, rfl, h, by simp⟩
      · have hrs : ∃ r'' ∈ rs, r''.line = n := by
          rcases List.mem_cons.1 hr' with rfl | hmem
          · exact absurd hline h
          · exact ⟨r', hmem, hline⟩
        rcases ih hrs with ⟨pre, r0, post, heq, h0, hpre⟩
        refine ⟨r :: pre, r0, post, by simp [heq], h0, ?_⟩
        intro x hx
        rcases List.mem_cons.1 hx with rfl | hx'
        · exact h
        · exact hpre x hx'

theorem lineEvents_append (sql : List Char) (n : Nat) (a b : List Event) :
    lineEvents sql n (a ++ b) = lineEvents sql n a ++ lineEvents sql n b := by
  simp [lineEvents]

theorem lineEvents_singleton_eq (sql : List Char) (e : Event) :
    lineEvents sql (evLine sql e) [e] = [e] := by
  simp [lineEvents]

theorem lineEvents_singleton_ne (sql : List Char) (n : Nat) (e : Event)
    (h : evLine sql e ≠ n) : lineEvents sql n [e] = [] := by
  simp [lineEvents, h]

theorem recordAgg_append_ne (sql : List Char) (evs : List Event) (r : Record)
    (e : Event) (h : RecordAgg sql evs r) (hne : evLine sql e ≠ r.line) :
    RecordAgg sql (evs ++ [e]) r := by
  unfold RecordAgg at h ⊢
  rw [lineEvents_append, lineEvents_singleton_ne sql r.line e hne,
    List.append_nil]
  exact h

theorem recordAgg_appendEvent (sql : List Char) (evs : List Event)
    (r0 : Record) (e : Event) (h : RecordAgg sql evs r0)
    (hline : r0.line = evLine sql e) :
    RecordAgg sql (evs ++ [e]) (appendEvent sql r0 e) := by
  obtain ⟨h1, h2, h3, h4, h5, h6, _, _, _, _⟩ := h
  unfold RecordAgg
  rw [appendEvent_line, lineEvents_append]
  have heq : lineEvents sql r0.line [e] = [e] := by
    rw [hline]; exact lineEvents_singleton_eq sql e
  rw [heq]
  simp only [appendEvent, List.map_append, List.map_cons, List.map_nil]
  refine ⟨by rw [h1], by rw [h2], by rw [h3], by rw [h4], by rw [h5],
    by rw [h6], ?_, ?_, ?_, ?_⟩ <;> trivial

theorem recordAgg_mkRecord (sql : List Char) (evs : List Event) (e : Event)
    (hempty : lineEvents sql (evLine sql e) evs = []) :
    RecordAgg sql (evs ++ [e]) (mkRecord sql e) := by
  unfold RecordAgg
  rw [mkRecord_line, lineEvents_append, hempty, lineEvents_singleton_eq]
  simp [mkRecord]

theorem addIssue_inv (sql : List Char) (evs : List Event) (out : List Record)
    (e : Event) (h : AggInv sql evs out) :
    AggInv sql (evs ++ [e]) (addIssue sql out e) := by
  obtain ⟨hnd, hex, hcomp, hagg⟩ := h
  by_cases hcase : ∃ r ∈ out, r.line = evLine sql e
  · rcases first_line_split (evLine sql e) out hcase with
      ⟨pre, r0, post, rfl, h0, hpre⟩
    rw [addIssue_update sql e pre r0 post h0 hpre]
    have hpost : ∀ r ∈ post, r.line ≠ evLine sql e := by
      intro r hr hline
      simp only [List.map_append, List.map_cons] at hnd
      have h1 := (List.nodup_append.1 hnd).2.1
      rw [List.nodup_cons] at h1
      exact h1.1 (by
        rw [h0, ← hline]
        exact List.mem_map_of_mem (·.line) hr)
    refine ⟨?_, ?_, ?_, ?_⟩
    · simpa [appendEvent_line] using hnd
    · intro r hr
      rcases List.mem_append.1 hr with hr' | hr'
      · rcases hex r (by simp [hr']) with ⟨e', he', hl⟩
        exact ⟨e', by simp [he'], hl⟩
      · rcases List.mem_cons.1 hr' with rfl | hr''
        · exact ⟨e, by simp, by rw [appendEvent_line, h0]⟩
        · rcases hex r (by simp [hr'']) with ⟨e', he', hl⟩
          exact ⟨e', by simp [he'], hl⟩
    · intro e' he'
      rcases List.mem_append.1 he' with he'' | he''
      · rcases hcomp e' he'' with ⟨r, hr, hl⟩
        rcases List.mem_append.1 hr with hr' | hr'
        · exact ⟨r, by simp [hr'], hl⟩
        · rcases List.mem_cons.1 hr' with heq | hr''
          · exact ⟨appendEvent sql r0 e, by simp, by
              rw [appendEvent_line, ← heq]; exact hl⟩
          · exact ⟨r, by simp [hr''], hl⟩
      · have : e' = e := by simpa using he''
        subst this
        exact ⟨appendEvent sql r0 e', by simp, by
          rw [appendEvent_line, h0]⟩
    · intro r hr
      rcases List.mem_append.1 hr with hr' | hr'
      · exact recordAgg_append_ne sql evs r e (hagg r (by simp [hr']))
          (fun hl => hpre r hr' hl.symm)
      · rcases List.mem_cons.1 hr' with rfl | hr''
        · exact recordAgg_appendEvent sql evs r0 e (hagg r0 (by simp)) h0
        · exact recordAgg_append_ne sql evs r e (hagg r (by simp [hr'']))
            (fun hl => hpost r hr'' hl.symm)
  · push_neg at hcase
    rw [addIssue_all_ne sql e out hcase]
    have hempty : lineEvents sql (evLine sql e) evs = [] := by
      unfold lineEvents
      rw [List.filter_eq_nil_iff]
      intro e' he' hdec
      have hl : evLine sql e' = evLine sql e := by simpa using hdec
      rcases hcomp e' he' with ⟨r, hr, hrl⟩
      exact hcase r hr (by rw [hrl, hl])
    refine ⟨?_, ?_, ?_, ?_⟩
    · rw [List.map_append]
      rw [List.nodup_append]
      refine ⟨hnd, by simp, ?_⟩
      intro x hx
      simp only [List.map_cons, List.map_nil, List.mem_singleton] at *
      rcases List.mem_map.1 hx with ⟨r, hr, rfl⟩
      intro hx'
      rw [mkRecord_line] at hx'
      exact hcase r hr hx'
    · intro r hr
      rcases List.mem_append.1 hr with hr' | hr'
      · rcases hex r hr' with ⟨e', he', hl⟩
        exact ⟨e', by simp [he'], hl⟩
      · have : r = mkRecord sql e := by simpa using hr'
        subst this
        exact ⟨e, by simp, (mkRecord_line sql e).symm⟩
    · intro e' he'
      rcases List.mem_append.1 he' with he'' | he''
      · rcases hcomp e' he'' with ⟨r, hr, hl⟩
        exact ⟨r, by simp [hr], hl⟩
      · have : e' = e := by simpa using he''
        subst this
        exact ⟨mkRecord sql e', by simp, mkRecord_line sql e'⟩
    · intro r hr
      rcases List.mem_append.1 hr with hr' | hr'
      · exact recordAgg_append_ne sql evs r e (hagg r hr')
          (fun hl => hcase r hr' hl.symm)
      · have : r = mkRecord sql e := by simpa using hr'
        subst this
        exact recordAgg_mkRecord sql evs e hempty

theorem aggInv_foldl (sql : List Char) :
    ∀ evs done out, AggInv sql done out →
      AggInv sql (done ++ evs) (evs.foldl (addIssue sql) out) := by
  intro evs
  induction evs with
  | nil => intro done out h; simpa using h
  | cons e rest ih =>
      intro done out h
      have h1 := addIssue_inv sql done out e h
      have h2 := ih (done ++ [e]) (addIssue sql out e) h1
      simpa using h2

theorem aggregateIssues_inv (sql : List Char) (evs : List Event) :
    AggInv sql evs (aggregateIssues sql evs) := by
  have h0 : AggInv sql [] [] := by
    refine ⟨by simp, by simp, by simp, by simp⟩
  have := aggInv_foldl sql evs [] [] h0
  simpa [aggregateIssues] using this

/-- C2: for every (arbitrary) detector-emitted event stream, folding the
stream through `_add_issue` yields an issue list with at most one record
per source line; each record's parallel arrays are the projections, in
first-seen order, of exactly the events of its line (hence all have equal
length), and the singular legacy fields `rule_id`, `severity`, `message`
and `evidence` always equal the first element of the corresponding array;
in particular two events on the same line produce one record whose
`rule_ids` has length 2 and whose `rule_id` is the first rule's id. -/
theorem c2_issue_aggregation (sql : List Char) (evs : List Event) :
    ((aggregateIssues sql evs).map (·.line)).Nodup ∧
      (∀ r ∈ aggregateIssues sql evs,
        r.rule_ids = (lineEvents sql r.line evs).map (·.rule) ∧
        r.issues = (lineEvents sql r.line evs).map (·.msg) ∧
        r.severity_levels.length = r.rule_ids.length ∧
        r.issues.length = r.rule_ids.length ∧
        r.column.length = r.rule_ids.length ∧
        r.evidence_list.length = r.rule_ids.length ∧
        r.rule_id = r.rule_ids.headD "" ∧
        r.severity = r.severity_levels.headD "" ∧
        r.message = r.issues.headD [] ∧
        r.evidence = r.evidence_list.headD []) ∧
      (∀ e1 e2 : Event, evLine sql e1 = evLine sql e2 →
        (aggregateIssues sql [e1, e2]).length = 1 ∧
        ∀ r ∈ aggregateIssues sql [e1, e2],
          r.rule_ids = [e1.rule, e2.rule] ∧ r.rule_id = e1.rule) := by
  obtain ⟨hnd, _, _, hagg⟩ := aggregateIssues_inv sql evs
  refine ⟨hnd, ?_, ?_⟩
  · intro r hr
    obtain ⟨h1, h2, h3, h4, h5, h6, h7, h8, h9, h10⟩ := hagg r hr
    exact ⟨h1, h3, by rw [h1, h2]; simp, by rw [h1, h3]; simp,
      by rw [h1, h4]; simp, by rw [h1, h5]; simp, h7, h8, h9, h10⟩
  · intro e1 e2 he
    have hstep : aggregateIssues sql [e1, e2] =
        [appendEvent sql (mkRecord sql e1) e2] := by
      show addIssue sql (addIssue sql [] e1) e2 = _
      show addIssue sql [mkRecord sql e1] e2 = _
      simp only [addIssue]
      rw [if_pos (by rw [mkRecord_line]; exact he)]
    refine ⟨by rw [hstep]; rfl, ?_⟩
    intro r hr
    rw [hstep] at hr
    have : r = appendEvent sql (mkRecord sql e1) e2 := by simpa using hr
    subst this
    exact ⟨by simp [appendEvent, mkRecord], by simp [appendEvent, mkRecord]⟩

/-- Witness for C2 at a concrete input: two events on line 1 of a one-line
script aggregate into a single record listing both rule ids, with the
legacy `rule_id` equal to the first one. -/
theorem c2_issue_aggregation_witness :
    (aggregateIssues ['S'] [{ rule := "RULE_A", msg := ['a'], pos := 0 },
        { rule := "RULE_B", msg := ['b'], pos := 0 }]).length = 1 ∧
      ∀ r ∈ aggregateIssues ['S'] [{ rule := "RULE_A", msg := ['a'], pos := 0 },
          { rule := "RULE_B", msg := ['b'], pos := 0 }],
        r.rule_ids = ["RULE_A", "RULE_B"] ∧ r.rule_id = "RULE_A" :=
  (c2_issue_aggregation ['S'] []).2.2
    { rule := "RULE_A", msg := ['a'], pos := 0 }
    { rule := "RULE_B", msg := ['b'], pos := 0 } (by decide)

/-- Python `str.lstrip()` (ASCII whitespace model). -/
def lstripWs (l : List Char) : List Char := l.dropWhile (fun c => isSpaceChar c)

/-- Python `str.strip()` (ASCII whitespace model). -/
def stripWs (l : List Char) : List Char :=
  ((l.dropWhile (fun c => isSpaceChar c)).reverse.dropWhile
    (fun c => isSpaceChar c)).reverse

/-- Python `str.strip()` on a `String` value. -/
def stripStr (s : String) : String := String.mk (stripWs s.data)

/-- `by_rule` increment in `main`, with the Python dict modelled as a total
function that is zero on absent keys. -/
def bumpRule (m : String → Nat) (k : String) : String → Nat :=
  fun x => if x = k then m x + 1 else m x

/-- Per-record `by_rule` contribution in `main`: every entry of a
non-empty `rule_ids` array is counted under its stripped form (entries
that are empty after stripping are skipped), with a fallback to the
single `rule_id` field. -/
def tallyRules (m : String → Nat) (r : Record) : String → Nat :=
  if r.rule_ids ≠ [] then
    r.rule_ids.foldl
      (fun m' rid => if stripStr rid ≠ "" then bumpRule m' (stripStr rid) else m') m
  else if stripStr r.rule_id ≠ "" then bumpRule m (stripStr r.rule_id) else m

/-- The `by_rule` table computed by `main` over the aggregated records. -/
def byRuleMap (issues : List Record) : String → Nat :=
  issues.foldl tallyRules (fun _ => 0)

/-- The `total_issues` counter computed by `main`: the length of each
record's `issues` array, with a fallback of 1. -/
def totalIssues (issues : List Record) : Nat :=
  issues.foldl (fun t r => t + (if r.issues ≠ [] then r.issues.length else 1)) 0

theorem foldl_tally_count (rid : String) :
    ∀ (ids : List String) (m : String → Nat),
      (∀ i ∈ ids, stripStr i = i ∧ i ≠ "") →
      (ids.foldl
        (fun m' i => if stripStr i ≠ "" then bumpRule m' (stripStr i) else m') m) rid
        = m rid + ids.count rid := by
  intro ids
  induction ids with
  | nil => intro m _; simp
  | cons i ids ih =>
      intro m h
      obtain ⟨htrim, hne⟩ := h i (by simp)
      simp only [List.foldl_cons]
      rw [if_pos (by rw [htrim]; exact hne), htrim]
      rw [ih (bumpRule m i) (fun j hj => h j (by simp [hj]))]
      by_cases hri : i = rid
      · subst hri
        simp [bumpRule]
        try omega
      · simp [bumpRule, hri, Ne.symm hri]
        try omega

theorem byRuleMap_go (rid : String) :
    ∀ (recs : List Record) (m : String → Nat),
      (∀ r ∈ recs, r.rule_ids ≠ [] ∧ ∀ i ∈ r.rule_ids, stripStr i = i ∧ i ≠ "") →
      (recs.foldl tallyRules m) rid
        = m rid + ((recs.map (·.rule_ids)).flatten.count rid) := by
  intro recs
  induction recs with
  | nil => intro m _; simp
  | cons r recs ih =>
      intro m h
      obtain ⟨hne, hwf⟩ := h r (by simp)
      simp only [List.foldl_cons]
      rw [ih (tallyRules m r) (fun r' hr' => h r' (by simp [hr']))]
      unfold tallyRules
      rw [if_pos hne, foldl_tally_count rid r.rule_ids m hwf]
      simp [List.count_append]
      try omega

theorem totalIssues_go :
    ∀ (recs : List Record) (t : Nat), (∀ r ∈ recs, r.issues ≠ []) →
      recs.foldl (fun t r => t + (if r.issues ≠ [] then r.issues.length else 1)) t
        = t + ((recs.map (·.issues.length)).sum) := by
  intro recs
  induction recs with
  | nil => intro t _; simp
  | cons r recs ih =>
      intro t h
      simp only [List.foldl_cons]
      rw [if_pos (h r (by simp)), ih (t + r.issues.length)
        (fun r' hr' => h r' (by simp [hr']))]
      simp [Nat.add_assoc]

/-- C4: when the aggregated issue list produced from a detector event
stream with well-formed rule ids is non-empty, the report builder in
`main` computes `total_issues` as the sum of the per-record issue-array
lengths, and `by_rule[r]` as the number of occurrences of `r` across all
records' `rule_ids` arrays — counts are per individual issue, not per
aggregated line record. -/
theorem c4_summary_counts (sql : List Char) (evs : List Event)
    (hwf : ∀ e ∈ evs, stripStr e.rule = e.rule ∧ e.rule ≠ "")
    (_hne : aggregateIssues sql evs ≠ []) :
    totalIssues (aggregateIssues sql evs) =
      ((aggregateIssues sql evs).map (·.issues.length)).sum ∧
    ∀ rid : String, byRuleMap (aggregateIssues sql evs) rid =
      ((aggregateIssues sql evs).map (·.rule_ids)).flatten.count rid := by
  obtain ⟨_, hex, _, hagg⟩ := aggregateIssues_inv sql evs
  have hprops : ∀ r ∈ aggregateIssues sql evs,
      r.rule_ids ≠ [] ∧ (∀ i ∈ r.rule_ids, stripStr i = i ∧ i ≠ "") ∧
        r.issues ≠ [] := by
    intro r hr
    obtain ⟨h1, _, h3, _⟩ := hagg r hr
    rcases hex r hr with ⟨e0, he0, hl0⟩
    have hle : lineEvents sql r.line evs ≠ [] := by
      intro hnil
      have hmem : e0 ∈ lineEvents sql r.line evs := by
        unfold lineEvents
        rw [List.mem_filter]
        exact ⟨he0, by simpa using hl0⟩
      rw [hnil] at hmem
      cases hmem
    refine ⟨by rw [h1]; simpa using hle, ?_, by rw [h3]; simpa using hle⟩
    intro i hi
    rw [h1] at hi
    rcases List.mem_map.1 hi with ⟨e', he', rfl⟩
    have hmem : e' ∈ evs := List.mem_of_mem_filter he'
    exact hwf e' hmem
  refine ⟨?_, ?_⟩
  · have := totalIssues_go (aggregateIssues sql evs) 0
      (fun r hr => (hprops r hr).2.2)
    simpa [totalIssues] using this
  · intro rid
    have := byRuleMap_go rid (aggregateIssues sql evs) (fun _ => 0)
      (fun r hr => ⟨(hprops r hr).1, (hprops r hr).2.1⟩)
    simpa [byRuleMap] using this

/-- Witness for C4 at a concrete aggregation of two distinct rules on two
lines of a two-line script. -/
theorem c4_summary_counts_witness :
    totalIssues (aggregateIssues ['A', '\n', 'B']
        [{ rule := "RULE_A", msg := ['a'], pos := 0 },
         { rule := "RULE_B", msg := ['b'], pos := 2 },
         { rule := "RULE_A", msg := ['c'], pos := 2 }]) =
      ((aggregateIssues ['A', '\n', 'B']
        [{ rule := "RULE_A", msg := ['a'], pos := 0 },
         { rule := "RULE_B", msg := ['b'], pos := 2 },
         { rule := "RULE_A", msg := ['c'], pos := 2 }]).map
          (·.issues.length)).sum ∧
    ∀ rid : String, byRuleMap (aggregateIssues ['A', '\n', 'B']
        [{ rule := "RULE_A", msg := ['a'], pos := 0 },
         { rule := "RULE_B", msg := ['b'], pos := 2 },
         { rule := "RULE_A", msg := ['c'], pos := 2 }]) rid =
      ((aggregateIssues ['A', '\n', 'B']
        [{ rule := "RULE_A", msg := ['a'], pos := 0 },
         { rule := "RULE_B", msg := ['b'], pos := 2 },
         { rule := "RULE_A", msg := ['c'], pos := 2 }]).map (·.rule_ids)).flatten.count rid :=
  c4_summary_counts ['A', '\n', 'B']
    [{ rule := "RULE_A", msg := ['a'], pos := 0 },
     { rule := "RULE_B", msg := ['b'], pos := 2 },
     { rule := "RULE_A", msg := ['c'], pos := 2 }]
    (by decide) (by decide)

/-- Case-insensitive keyword consumption: consume `kw` from the front of
`l` ignoring case, returning the rest. -/
def dropCI : List Char → List Char → Option (List Char)
  | [], l => some l
  | _ :: _, [] => none
  | k :: ks, c :: cs => if c.toLower = k.toLower then dropCI ks cs else none

/-- Regex `\b` before a word character, given the previous character. -/
def boundaryBefore (prev : Option Char) : Bool :=
  match prev with
  | none => true
  | some c => !isWordChar c

/-- Regex `\b` after a word character, given the following text. -/
def boundaryAfter : List Char → Bool
  | [] => true
  | c :: _ => !isWordChar c

/-- Length of the maximal run of characters satisfying `p`. -/
def spanLen (p : Char → Bool) (l : List Char) : Nat := (l.takeWhile p).length

/-- Rest after the maximal run of characters satisfying `p`. -/
def spanRest (p : Char → Bool) (l : List Char) : List Char := l.dropWhile p

/-- Regex `\bKW\b` (case-insensitive) at the current position. -/
def wordAtCI (kw : List Char) (prev : Option Char) (l : List Char) : Bool :=
  boundaryBefore prev &&
    (match dropCI kw l with
     | some r => boundaryAfter r
     | none => false)

/-- `re.search`: index of the first position of `l` where `test` holds,
scanning left to right while tracking the previous character. -/
def searchPos (test : Option Char → List Char → Bool) :
    Option Char → List Char → Option Nat
  | _, [] => none
  | prev, c :: rest =>
      if test prev (c :: rest) then some 0
      else (searchPos test (some c) rest).map (· + 1)

/-- Index of the first stop position (or the length if none stops). -/
def scanStop (test : Option Char → List Char → Bool) :
    Option Char → List Char → Nat
  | _, [] => 0
  | prev, c :: rest =>
      if test prev (c :: rest) then 0 else scanStop test (some c) rest + 1

/-- `re.finditer`: scan the text left to right; at each position attempt a
match; on success record `(index, data)` and resume right after the match.
The fuel argument (instantiated with the text length plus one) keeps the
recursion structural; every pattern used consumes at least one character,
so the fuel is never exhausted. -/
def finditerGo (tryM : Option Char → List Char → Option (Nat × α)) :
    Nat → Option Char → List Char → Nat → List (Nat × α)
  | 0, _, _, _ => []
  | _ + 1, _, [], _ => []
  | fuel + 1, prev, c :: rest, idx =>
      match tryM prev (c :: rest) with
      | some (len, a) =>
          (idx, a) ::
            finditerGo tryM fuel (((c :: rest).take len).getLast?)
              ((c :: rest).drop len) (idx + len)
      | none => finditerGo tryM fuel (some c) rest (idx + 1)

/-- All matches of a pattern in a text. -/
def finditerAll (tryM : Option Char → List Char → Option (Nat × α))
    (l : List Char) : List (Nat × α) :=
  finditerGo tryM (l.length + 1) none l 0

/-- Name-token character class of `sql_rule_engine.py`:
`[`"\[\]\w\.\$#@]`. -/
def engineNameChar (c : Char) : Bool :=
  isWordChar c || c = btick || c = '"' || c = '[' || c = ']' || c = '.' ||
    c = '$' || c = '#' || c = '@'

/-- Name-token character class of `sqlStaticAnalyzer.py`: the same class
without the double quote (the `""` in its pattern source is Python string
concatenation, not a class member). -/
def analyzerNameChar (c : Char) : Bool :=
  isWordChar c || c = btick || c = '[' || c = ']' || c = '.' ||
    c = '$' || c = '#' || c = '@'

/-- Column-name character class of `_check_table_definitions`:
`[`"\[\]\w#@\$]` (no dot). -/
def engineColChar (c : Char) : Bool :=
  isWordChar c || c = btick || c = '"' || c = '[' || c = ']' ||
    c = '#' || c = '@' || c = '$'

/-- Consume a case-insensitive keyword followed by `\s+`. -/
def eatKwWs (kw : List Char) (l : List Char) : Option (Nat × List Char) :=
  match dropCI kw l with
  | none => none
  | some r =>
      let n := spanLen isSpaceChar r
      if n = 0 then none else some (kw.length + n, spanRest isSpaceChar r)

/-- Consume a sequence of keywords, each followed by `\s+`. -/
def eatSeqKwWs : List (List Char) → List Char → Option (Nat × List Char)
  | [], l => some (0, l)
  | k :: ks, l =>
      match eatKwWs k l with
      | none => none
      | some (n, r) =>
          match eatSeqKwWs ks r with
          | none => none
          | some (m, r') => some (n + m, r')

/-- Match data of the CREATE-object regexes: total length, offset of the
captured name group within the match, and the captured name text. -/
structure CreateM where
  len : Nat
  nameOff : Nat
  name : List Char
deriving DecidableEq, Repr

/-- `TABLE_RE`: `\bCREATE\s+TABLE\s+(?:IF\s+NOT\s+EXISTS\s+)?([cls]+)`;
the optional group is tried greedily and given up if no name follows. -/
def tryCreateTable (cls : Char → Bool) (prev : Option Char)
    (l : List Char) : Option (Nat × CreateM) :=
  if !boundaryBefore prev then none else
  match eatKwWs "CREATE".toList l with
  | none => none
  | some (n1, r1) =>
      match eatKwWs "TABLE".toList r1 with
      | none => none
      | some (n2, r2) =>
          let noOpt : Option (Nat × CreateM) :=
            let g := spanLen cls r2
            if g = 0 then none
            else some (n1 + n2 + g,
              ⟨n1 + n2 + g, n1 + n2, r2.takeWhile cls⟩)
          match eatSeqKwWs ["IF".toList, "NOT".toList, "EXISTS".toList] r2 with
          | none => noOpt
          | some (n3, r3) =>
              let g := spanLen cls r3
              if g = 0 then noOpt
              else some (n1 + n2 + n3 + g,
                ⟨n1 + n2 + n3 + g, n1 + n2 + n3, r3.takeWhile cls⟩)

/-- `VIEW_RE`/`PROC_RE`/`FUNC_RE`:
`\bCREATE\s+(?:OR\s+REPLACE\s+)?KW\s+([cls]+)`. -/
def tryCreateObj2 (kw : List Char) (cls : Char → Bool) (prev : Option Char)
    (l : List Char) : Option (Nat × CreateM) :=
  if !boundaryBefore prev then none else
  match eatKwWs "CREATE".toList l with
  | none => none
  | some (n1, r1) =>
      let tail := fun (n : Nat) (r : List Char) =>
        match eatKwWs kw r with
        | none => none
        | some (n2, r2) =>
            let g := spanLen cls r2
            if g = 0 then none
            else some (n1 + n + n2 + g,
              (⟨n1 + n + n2 + g, n1 + n + n2, r2.takeWhile cls⟩ : CreateM))
      match eatSeqKwWs ["OR".toList, "REPLACE".toList] r1 with
      | none => tail 0 r1
      | some (n, r) =>
          match tail n r with
          | some m => some m
          | none => tail 0 r1

/-- `\bCREATE\s+(?:OR\s+REPLACE\s+)?TRIGGER\b` of `_check_no_trigger`. -/
def tryTrigger (prev : Option Char) (l : List Char) : Option (Nat × Unit) :=
  if !boundaryBefore prev then none else
  match eatKwWs "CREATE".toList l with
  | none => none
  | some (n1, r1) =>
      let tail := fun (n : Nat) (r : List Char) =>
        match dropCI "TRIGGER".toList r with
        | none => none
        | some r2 => if boundaryAfter r2 then some (n1 + n + 7, ()) else none
      match eatSeqKwWs ["OR".toList, "REPLACE".toList] r1 with
      | none => tail 0 r1
      | some (n, r) =>
          match tail n r with
          | some m => some m
          | none => tail 0 r1

/-- Match data of the DELETE regex: total length, the captured table token
and the `[^;]*` tail. -/
structure DeleteM where
  len : Nat
  name : List Char
  tail : List Char
deriving DecidableEq, Repr

/-- `\bDELETE\s+FROM\s+([cls]+)([^;]*)`. -/
def tryDelete (cls : Char → Bool) (prev : Option Char)
    (l : List Char) : Option (Nat × DeleteM) :=
  if !boundaryBefore prev then none else
  match eatKwWs "DELETE".toList l with
  | none => none
  | some (n1, r1) =>
      match eatKwWs "FROM".toList r1 with
      | none => none
      | some (n2, r2) =>
          let g := spanLen cls r2
          if g = 0 then none
          else
            let r3 := spanRest cls r2
            let t := r3.takeWhile (fun c => c ≠ ';')
            some (n1 + n2 + g + t.length,
              ⟨n1 + n2 + g + t.length, r2.takeWhile cls, t⟩)

/-- `\bKW\b` as a finditer pattern. -/
def tryWord (kw : List Char) (prev : Option Char) (l : List Char) :
    Option (Nat × Unit) :=
  if wordAtCI kw prev l then some (kw.length, ()) else none

/-- `\b(INSERT|UPDATE|DELETE)\b` of `_iter_dml_segments`. -/
def tryDml (prev : Option Char) (l : List Char) : Option (Nat × Unit) :=
  if wordAtCI "INSERT".toList prev l then some (6, ())
  else if wordAtCI "UPDATE".toList prev l then some (6, ())
  else if wordAtCI "DELETE".toList prev l then some (6, ())
  else none

/-- `\b[A-Z_][A-Z0-9_]*\s*\(` (IGNORECASE) of `_max_function_call_depth`;
the payload is the match length, so `end - 1` addresses the `(`. -/
def tryFuncParen (prev : Option Char) (l : List Char) : Option (Nat × Nat) :=
  if !boundaryBefore prev then none else
  match l with
  | [] => none
  | c :: rest =>
      if c.isAlpha || c = '_' then
        let n := spanLen isWordChar rest
        let r2 := spanRest isWordChar rest
        let w := spanLen isSpaceChar r2
        let r3 := spanRest isSpaceChar r2
        match r3 with
        | '(' :: _ => some (1 + n + w + 1, 1 + n + w + 1)
        | _ => none
      else none

/-- `masked.find(c, i)`. -/
def findCharFrom (c : Char) (l : List Char) (i : Nat) : Option Nat :=
  match (l.drop i).findIdx? (fun d => d = c) with
  | some j => some (i + j)
  | none => none

/-- First index (with the character found) satisfying `p`. -/
def findCharIdx (p : Char → Bool) : List Char → Nat → Option (Nat × Char)
  | [], _ => none
  | c :: r, i => if p c then some (i, c) else findCharIdx p r (i + 1)

/-- `sql[a:b]` for `a ≤ b`. -/
def slice (l : List Char) (a b : Nat) : List Char := (l.drop a).take (b - a)

/-- `_find_next_create`: search `\bCREATE\b` in `masked[start+1:]` (the
word boundary is evaluated relative to the slice). -/
def findNextCreate (masked : List Char) (start : Nat) : Nat :=
  match searchPos (wordAtCI "CREATE".toList) none (masked.drop (start + 1)) with
  | some j => start + 1 + j
  | none => masked.length

/-- `_extract_statement`. -/
def extractStatement (sql masked : List Char) (start : Nat) : List Char :=
  slice sql start (findNextCreate masked start)

/-- Depth loop of `_find_matching_paren` (depth is an integer, decremented
on every `)`). -/
def findParenGo : List Char → Nat → Int → Option Nat
  | [], _, _ => none
  | '(' :: r, i, d => findParenGo r (i + 1) (d + 1)
  | ')' :: r, i, d => if d - 1 = 0 then some i else findParenGo r (i + 1) (d - 1)
  | _ :: r, i, d => findParenGo r (i + 1) d

/-- `_find_matching_paren` (`-1` becomes `none`). -/
def findMatchingParen (masked : List Char) (start : Nat) : Option Nat :=
  findParenGo (masked.drop start) start 0

/-- Loop of `_split_columns`: cut a segment at every comma at parenthesis
depth zero; the final trailing segment is kept when non-empty. -/
def splitColumnsGo (sql : List Char) (endIdx : Nat) :
    List Char → Nat → Nat → Nat → List (List Char × Nat)
  | [], _, segStart, _ =>
      if segStart < endIdx then [(slice sql segStart endIdx, segStart)] else []
  | c :: r, idx, segStart, depth =>
      if c = '(' then splitColumnsGo sql endIdx r (idx + 1) segStart (depth + 1)
      else if c = ')' then
        splitColumnsGo sql endIdx r (idx + 1) segStart
          (if depth > 0 then depth - 1 else depth)
      else if c = ',' && depth = 0 then
        (slice sql segStart idx, segStart) ::
          splitColumnsGo sql endIdx r (idx + 1) (idx + 1) depth
      else splitColumnsGo sql endIdx r (idx + 1) segStart depth

/-- `_split_columns`. -/
def splitColumns (sql masked : List Char) (startIdx endIdx : Nat) :
    List (List Char × Nat) :=
  splitColumnsGo sql endIdx (slice masked startIdx endIdx) startIdx startIdx 0

/-- `_find_statement_terminator`. -/
def findStatementTerminator (masked : List Char) (start : Nat) : Nat :=
  match (masked.drop start).findIdx? (fun c => c = ';') with
  | some j => start + j + 1
  | none => masked.length

/-- Suffix after the last dot (`token.split(".")[-1]`). -/
def afterLastDot (l : List Char) : List Char :=
  (l.reverse.takeWhile (fun c => c ≠ '.')).reverse

/-- Python `str.strip` over a set of characters. -/
def stripSetChars (cs : List Char) (l : List Char) : List Char :=
  ((l.dropWhile (fun c => cs.contains c)).reverse.dropWhile
    (fun c => cs.contains c)).reverse

/-- Python `str.rstrip()` (ASCII whitespace model). -/
def rstripWs (l : List Char) : List Char :=
  (l.reverse.dropWhile (fun c => isSpaceChar c)).reverse

/-- `_last_identifier`. -/
def lastIdentifier (t : List Char) : List Char :=
  let t1 := stripWs t
  let t2 := if t1.contains '.' then afterLastDot t1 else t1
  let t3 :=
    if t2.head? = some '[' && t2.getLast? = some ']' then (t2.drop 1).dropLast
    else t2
  stripSetChars [btick, '"'] t3

/-- `str.upper()` (ASCII model; identity on CJK). -/
def upperL (l : List Char) : List Char := l.map Char.toUpper

/-- `endswith`. -/
def endsWithL (pat l : List Char) : Bool := startsWithL pat.reverse l.reverse

/-- `IDENTIFIER_RE = ^[A-Z][A-Z0-9_]*$` as a full-match test. -/
def isUpperAZ (c : Char) : Bool := 'A' ≤ c && c ≤ 'Z'

/-- Full match of `IDENTIFIER_RE`. -/
def identifierOk : List Char → Bool
  | [] => false
  | c :: rest => isUpperAZ c && rest.all (fun d => isUpperAZ d || d.isDigit || d = '_')

/-- Number of non-empty underscore-separated parts of a name. -/
def underscoreParts (l : List Char) : Nat :=
  ((l.splitOn '_').filter (fun p => p ≠ [])).length

/-- `CJK_RE` character ranges. -/
def isCJK (c : Char) : Bool :=
  (0x3400 ≤ c.toNat && c.toNat ≤ 0x4DBF) ||
  (0x4E00 ≤ c.toNat && c.toNat ≤ 0x9FFF) ||
  (0xF900 ≤ c.toNat && c.toNat ≤ 0xFAFF) ||
  (0x3040 ≤ c.toNat && c.toNat ≤ 0x30FF) ||
  (0xAC00 ≤ c.toNat && c.toNat ≤ 0xD7AF)

/-- First line of a text (`str.splitlines()[0]`, ASCII separators). -/
def firstLine (l : List Char) : List Char :=
  l.takeWhile (fun c => !(c = '\n' || c = '\r' || c = '\x0b' || c = '\x0c'))

/-- First index of a substring (`str.find`, `none` for `-1`). -/
def firstSubIdx (pat : List Char) : List Char → Option Nat
  | [] => if startsWithL pat [] then some 0 else none
  | c :: cs =>
      if startsWithL pat (c :: cs) then some 0
      else (firstSubIdx pat cs).map (· + 1)

/-- `TABLE_RE.finditer(masked)`. -/
def engineTableMatches (masked : List Char) : List (Nat × CreateM) :=
  finditerAll (tryCreateTable engineNameChar) masked

/-- `VIEW_RE.finditer(masked)`. -/
def engineViewMatches (masked : List Char) : List (Nat × CreateM) :=
  finditerAll (tryCreateObj2 "VIEW".toList engineNameChar) masked

/-- `PROC_RE.finditer(masked)`. -/
def engineProcMatches (masked : List Char) : List (Nat × CreateM) :=
  finditerAll (tryCreateObj2 "PROCEDURE".toList engineNameChar) masked

/-- `FUNC_RE.finditer(masked)`. -/
def engineFuncMatches (masked : List Char) : List (Nat × CreateM) :=
  finditerAll (tryCreateObj2 "FUNCTION".toList engineNameChar) masked

/-- `_check_cjk`. -/
def checkCjkEvents (masked : List Char) : List Event :=
  match findCharIdx isCJK masked 0 with
  | some (i, ch) =>
      [{ rule := "RULE_01_CJK_NAME",
         msg := "检测到中文/非 ASCII 字符（疑似用于对象/列命名），应使用英文单词/短语/缩写。".toList,
         pos := i,
         evidence := ['.', '.', '.'] ++ [ch] ++ ['.', '.', '.'] }]
  | none => []

/-- `_enforce_identifier_format`. -/
def enforceIdentifierEvents (name : List Char) (idx : Nat)
    (desc : List Char) : List Event :=
  let clean := stripWs name
  if clean = [] then []
  else
    (if identifierOk clean then []
     else
       [{ rule := "RULE_01_IDENTIFIER_FORMAT",
          msg := desc ++ [' '] ++ clean ++ [' '] ++
            "不符合命名规范（需使用大写英文、数字、下划线且以字母开头）。".toList,
          pos := idx, evidence := clean, obj := clean }]) ++
    (if underscoreParts clean > 3 then
       [{ rule := "RULE_03_IDENTIFIER_WORD_LIMIT",
          msg := desc ++ [' '] ++ clean ++ [' '] ++
            "超过 3 个单词（以下划线分隔）。".toList,
          pos := idx, evidence := clean, obj := clean }]
     else [])

/-- `_check_naming_prefixes` (table loop). -/
def tableNamingEvents (masked : List Char) : List Event :=
  (engineTableMatches masked).flatMap fun im =>
    let name := lastIdentifier im.2.name
    enforceIdentifierEvents name (im.1 + im.2.nameOff) "表名".toList ++
    (if !startsWithL "T_".toList (upperL name) then
       [{ rule := "RULE_04_PREFIX_TABLE",
          msg := "表名需以 T_ 开头：发现 ".toList ++ name,
          pos := im.1, evidence := slice masked im.1 (im.1 + im.2.len),
          obj := name }]
     else []) ++
    (if startsWithL "TMP_TMP_TMP".toList (upperL name) then
       [{ rule := "RULE_14_TMP_TRIPLE",
          msg := "中间表命名不得使用 TMP_TMP_TMP 前缀：发现 ".toList ++ name,
          pos := im.1, evidence := slice masked im.1 (im.1 + im.2.len),
          obj := name }]
     else [])

/-- `_check_naming_prefixes` (view, procedure and function loops). -/
def objNamingEvents (masked : List Char) (ms : List (Nat × CreateM))
    (rid : String) (pfx : List Char) (msgHead : List Char)
    (desc : List Char) : List Event :=
  ms.flatMap fun im =>
    let name := lastIdentifier im.2.name
    enforceIdentifierEvents name (im.1 + im.2.nameOff) desc ++
    (if !startsWithL pfx (upperL name) then
       [{ rule := rid, msg := msgHead ++ name,
          pos := im.1, evidence := slice masked im.1 (im.1 + im.2.len),
          obj := name }]
     else [])

/-- `_check_naming_prefixes`. -/
def namingEvents (masked : List Char) : List Event :=
  tableNamingEvents masked ++
  objNamingEvents masked (engineViewMatches masked) "RULE_04_PREFIX_VIEW"
    "V_".toList "视图名需以 V_ 开头：发现 ".toList "视图名".toList ++
  objNamingEvents masked (engineProcMatches masked) "RULE_04_PREFIX_PROC"
    "P_".toList "存储过程名需以 P_ 开头：发现 ".toList "存储过程名".toList ++
  objNamingEvents masked (engineFuncMatches masked) "RULE_04_PREFIX_FUNC"
    "F_".toList "函数名需以 F_ 开头：发现 ".toList "函数名".toList

/-- Constraint-leading keywords skipped by the column loop. -/
def constraintKeywords : List (List Char) :=
  ["CONSTRAINT".toList, "PRIMARY".toList, "FOREIGN".toList,
   "UNIQUE".toList, "CHECK".toList, "KEY".toList]

/-- Column-name extraction guards of the `_check_table_definitions`
segment loop; returns the column name and its absolute offset when the
segment is a real column definition. -/
def segColumnInfo (seg : List Char × Nat) : Option (List Char × Nat) :=
  let raw := stripWs seg.1
  if raw = [] then none
  else
    let kw := upperL (raw.takeWhile (fun c => !isSpaceChar c))
    if constraintKeywords.contains kw then none
    else
      let trimmed := lstripWs seg.1
      let leading := seg.1.length - trimmed.length
      let g := spanLen engineColChar trimmed
      if g = 0 then none
      else some (lastIdentifier (trimmed.takeWhile engineColChar), seg.2 + leading)

/-- Events for one column segment of `_check_table_definitions`. -/
def segEvents (tableName : List Char) (seg : List Char × Nat) : List Event :=
  match segColumnInfo seg with
  | none => []
  | some cn =>
      enforceIdentifierEvents cn.1 cn.2
        ("表 ".toList ++ tableName ++ " 的字段".toList) ++
      (if !hasSubL "COMMENT".toList (upperL (stripWs seg.1)) then
         [{ rule := "RULE_05_COLUMN_COMMENT",
            msg := "表 ".toList ++ tableName ++ " 字段 ".toList ++ cn.1 ++
              " 缺少注释。".toList,
            pos := cn.2, evidence := stripWs (stripWs seg.1),
            obj := tableName ++ ['.'] ++ cn.1 }]
       else [])

/-- `_check_table_definitions`. -/
def tableDefEvents (sql masked : List Char) : List Event :=
  (engineTableMatches masked).flatMap fun im =>
    let tableName := lastIdentifier im.2.name
    let statement := extractStatement sql masked im.1
    let commentEvents :=
      if !hasSubL "COMMENT".toList (upperL statement) then
        [{ rule := "RULE_05_TABLE_COMMENT",
           msg := "表 ".toList ++ tableName ++ " 缺少注释（COMMENT）。".toList,
           pos := im.1,
           evidence :=
             if stripWs statement ≠ [] then firstLine (stripWs statement)
             else tableName,
           obj := tableName }]
      else []
    match findCharFrom '(' masked (im.1 + im.2.len) with
    | none => commentEvents
    | some ps =>
        match findMatchingParen masked ps with
        | none => commentEvents
        | some pe =>
            let segs := splitColumns sql masked (ps + 1) pe
            let colEvents := segs.flatMap (segEvents tableName)
            let hasDt := segs.any fun seg =>
              match segColumnInfo seg with
              | some cn => upperL cn.1 = "DT_DATE".toList
              | none => false
            commentEvents ++ colEvents ++
              (if endsWithL "_HIS".toList (upperL tableName) && !hasDt then
                 [{ rule := "RULE_15_HISTORY_DT_DATE",
                    msg := "历史表 ".toList ++ tableName ++
                      " 需包含字段 DT_DATE。".toList,
                    pos := im.1 + im.2.nameOff, evidence := tableName,
                    obj := tableName }]
               else [])

/-- `DELETE_RE.finditer` of `_check_delete_full_table`. -/
def deleteMatches (text : List Char) : List (Nat × DeleteM) :=
  finditerAll (tryDelete engineNameChar) text

/-- `re.search(r"\bWHERE\b", tail, IGNORECASE)` on the captured tail. -/
def whereInTail (t : List Char) : Bool :=
  (searchPos (wordAtCI "WHERE".toList) none t).isSome

/-- `_check_delete_full_table` (the only detector that masks block
comments only). -/
def checkDeleteEvents (sql : List Char) : List Event :=
  (deleteMatches (maskBlockComments sql)).filterMap fun im =>
    if whereInTail im.2.tail then none
    else
      some { rule := "RULE_16_DELETE_NO_WHERE",
             msg := "检测到对表 ".toList ++ lastIdentifier im.2.name ++
               " 的全表删除（DELETE 无 WHERE）。请使用 TRUNCATE。".toList,
             pos := im.1,
             evidence := slice (maskBlockComments sql) im.1 (im.1 + im.2.len),
             obj := lastIdentifier im.2.name }

/-- `_check_uppercase`: `re.search(r"[a-z]", masked)`. -/
def checkUppercaseEvents (sql masked : List Char) : List Event :=
  match findCharIdx (fun c => 'a' ≤ c && c ≤ 'z') masked 0 with
  | some ic =>
      [{ rule := "RULE_06_UPPERCASE",
         msg := "脚本需使用大写字母，检测到小写字符。".toList,
         pos := ic.1, evidence := lineSnippet sql ic.1,
         severity := "WARNING" }]
  | none => []

/-- `len(re.findall(r"\bSELECT\b", body_masked, IGNORECASE))`. -/
def countSelects (l : List Char) : Nat :=
  (finditerAll (tryWord "SELECT".toList) l).length

/-- `_check_view_nesting`. -/
def checkViewNestingEvents (sql masked : List Char) : List Event :=
  (engineViewMatches masked).flatMap fun im =>
    let viewName := lastIdentifier im.2.name
    let statement := extractStatement sql masked im.1
    let body :=
      match firstSubIdx " AS ".toList (upperL statement) with
      | some j => statement.drop (j + 4)
      | none => statement
    let cnt := countSelects (maskCommentsAndStrings body)
    if cnt > 3 then
      [{ rule := "RULE_10_VIEW_NESTING",
         msg := "视图 ".toList ++ viewName ++
           " 的嵌套层级疑似超过 3 层（检测到 ".toList ++
           (toString cnt).toList ++ " 个 SELECT）。".toList,
         pos := im.1 + im.2.nameOff, evidence := viewName, obj := viewName }]
    else []

/-- Stack walk of `_max_function_call_depth`. -/
def funcDepthGo (positions : List Nat) :
    List Char → Nat → List Bool → Nat → Nat → Nat
  | [], _, _, _, mx => mx
  | c :: r, idx, stack, cur, mx =>
      if c = '(' then
        let isF := positions.contains idx
        if isF then
          funcDepthGo positions r (idx + 1) (true :: stack) (cur + 1)
            (max mx (cur + 1))
        else funcDepthGo positions r (idx + 1) (false :: stack) cur mx
      else if c = ')' then
        match stack with
        | [] => funcDepthGo positions r (idx + 1) [] cur mx
        | b :: rest =>
            funcDepthGo positions r (idx + 1) rest
              (if b && cur > 0 then cur - 1 else cur) mx
      else funcDepthGo positions r (idx + 1) stack cur mx

/-- `_max_function_call_depth`. -/
def maxFuncCallDepth (masked : List Char) : Nat :=
  let positions := (finditerAll tryFuncParen masked).map
    (fun im => im.1 + im.2 - 1)
  funcDepthGo positions masked 0 [] 0 0

/-- `_check_function_rules`. -/
def checkFunctionRulesEvents (sql masked : List Char) : List Event :=
  (engineFuncMatches masked).flatMap fun im =>
    let funcName := lastIdentifier im.2.name
    let statement := extractStatement sql masked im.1
    let depth := maxFuncCallDepth (maskCommentsAndStrings statement)
    (if depth > 3 then
       [{ rule := "RULE_11_FUNCTION_NESTING",
          msg := "函数 ".toList ++ funcName ++ " 嵌套调用深度 ".toList ++
            (toString depth).toList ++ " 超出 3 层限制。".toList,
          pos := im.1, evidence := funcName, obj := funcName }]
     else if depth > 2 then
       [{ rule := "RULE_11_FUNCTION_NESTING_WARN",
          msg := "函数 ".toList ++ funcName ++ " 嵌套调用深度 ".toList ++
            (toString depth).toList ++ "，建议不超过 2 层。".toList,
          pos := im.1, evidence := funcName, severity := "WARNING",
          obj := funcName }]
     else []) ++
    (if countQ '\n' statement + 1 > 200 then
       [{ rule := "RULE_12_FUNCTION_LENGTH",
          msg := "函数 ".toList ++ funcName ++ " 行数为 ".toList ++
            (toString (countQ '\n' statement + 1)).toList ++
            "，超过 200 行。".toList,
          pos := im.1, evidence := funcName, obj := funcName }]
     else [])

/-- Positions of `(?<![\s<>=!])=(?!=)` in a statement (left-spacing
check): an `=` whose negative lookbehind and lookahead both succeed. -/
def eqLeftOk (stmt : List Char) (i : Nat) : Bool :=
  decide (stmt.get? i = some '=') &&
  (match i, stmt.get? (i - 1) with
   | 0, _ => true
   | _ + 1, some c => !(isSpaceChar c || c = '<' || c = '>' || c = '=' || c = '!')
   | _ + 1, none => true) &&
  !decide (stmt.get? (i + 1) = some '=')

/-- Positions of `=(?!=)(?![\s=])` in a statement (right-spacing check):
an `=` not followed by `=` or whitespace (both lookaheads succeed at end
of text). -/
def eqRightOk (stmt : List Char) (i : Nat) : Bool :=
  decide (stmt.get? i = some '=') &&
  (match stmt.get? (i + 1) with
   | some c => !(c = '=' || isSpaceChar c)
   | none => true)

/-- All left-spacing match positions, in scan order. -/
def eqLeftPositions (stmt : List Char) : List Nat :=
  (List.range stmt.length).filter (fun i => eqLeftOk stmt i)

/-- All right-spacing match positions, in scan order. -/
def eqRightPositions (stmt : List Char) : List Nat :=
  (List.range stmt.length).filter (fun i => eqRightOk stmt i)

/-- `_check_procedure_rules`. -/
def checkProcedureRulesEvents (sql masked : List Char) : List Event :=
  (engineProcMatches masked).flatMap fun im =>
    let procName := lastIdentifier im.2.name
    let statement := extractStatement sql masked im.1
    ((eqLeftPositions statement).map fun j =>
      ({ rule := "RULE_14_EQUAL_SPACING_LEFT",
         msg := "存储过程内等号两侧需留空格。".toList,
         pos := im.1 + j, evidence := lineSnippet sql (im.1 + j),
         obj := procName, severity := "WARNING" } : Event)) ++
    ((eqRightPositions statement).map fun j =>
      ({ rule := "RULE_14_EQUAL_SPACING_RIGHT",
         msg := "存储过程内等号两侧需留空格。".toList,
         pos := im.1 + j, evidence := lineSnippet sql (im.1 + j),
         obj := procName, severity := "WARNING" } : Event)) ++
    (if (searchPos (wordAtCI "TRUNCATE".toList) none statement).isSome then
       [{ rule := "RULE_20_PROCEDURE_TRUNCATE",
          msg := "存储过程 ".toList ++ procName ++
            " 中禁止使用 TRUNCATE。".toList,
          pos := im.1, evidence := procName, obj := procName }]
     else [])

/-- `_iter_dml_segments`. -/
def iterDmlSegments (statement : List Char) : List (Nat × Nat) :=
  (finditerAll tryDml (maskCommentsAndStrings statement)).map fun im =>
    (im.1, findStatementTerminator (maskCommentsAndStrings statement) im.1)

/-- `_has_adjacent_comment`. -/
def hasAdjacentComment (statement : List Char) (s e : Nat) : Bool :=
  let seg := slice statement s e
  if hasSubL "--".toList seg || hasSubL "/*".toList seg then true
  else
    (let sp := rstripWs (statement.take s)
     if sp ≠ [] then
       let lastLine := (sp.reverse.takeWhile (fun c => c ≠ '\n')).reverse
       hasSubL "--".toList lastLine ||
         (endsWithL "*/".toList sp &&
           hasSubL "/*".toList (sp.take (sp.length - 2)))
     else false) ||
    (let r := lstripWs (statement.drop e)
     startsWithL "--".toList r || startsWithL "/*".toList r)

/-- `_check_procedure_comments` for one object family. -/
def procCommentEvents (sql masked : List Char)
    (ms : List (Nat × CreateM)) (label : List Char) (rid : String) :
    List Event :=
  ms.flatMap fun im =>
    let objName := lastIdentifier im.2.name
    let statement := extractStatement sql masked im.1
    (iterDmlSegments statement).filterMap fun se =>
      if hasAdjacentComment statement se.1 se.2 then none
      else
        some { rule := rid,
               msg := label ++ [' '] ++ objName ++
                 " 包含 DML 语句但缺少注释。".toList,
               pos := im.1 + se.1,
               evidence := stripWs (slice statement se.1 se.2),
               obj := objName }

/-- `_check_procedure_comments`. -/
def checkProcedureCommentsEvents (sql masked : List Char) : List Event :=
  procCommentEvents sql masked (engineProcMatches masked) "存储过程".toList
    "RULE_05_PROC_COMMENT" ++
  procCommentEvents sql masked (engineFuncMatches masked) "函数".toList
    "RULE_05_FUNC_COMMENT"

/-- `_check_no_trigger`. -/
def checkNoTriggerEvents (sql masked : List Char) : List Event :=
  (finditerAll tryTrigger masked).map fun im =>
    { rule := "RULE_13_NO_TRIGGER", msg := "不允许创建触发器。".toList,
      pos := im.1, evidence := lineSnippet sql im.1 }

/-- The detector event stream of `main`, in source order. -/
def engineEvents (sql : List Char) : List Event :=
  checkCjkEvents (maskCommentsAndStrings sql) ++
  namingEvents (maskCommentsAndStrings sql) ++
  tableDefEvents sql (maskCommentsAndStrings sql) ++
  checkDeleteEvents sql ++
  checkUppercaseEvents sql (maskCommentsAndStrings sql) ++
  checkViewNestingEvents sql (maskCommentsAndStrings sql) ++
  checkFunctionRulesEvents sql (maskCommentsAndStrings sql) ++
  checkProcedureRulesEvents sql (maskCommentsAndStrings sql) ++
  checkProcedureCommentsEvents sql (maskCommentsAndStrings sql) ++
  checkNoTriggerEvents sql (maskCommentsAndStrings sql)

/-- The aggregated issue list computed by `main` for a string input. -/
def engineIssues (sql : List Char) : List Record :=
  aggregateIssues sql (engineEvents sql)

/-- A Python value at the engine's boundary: either a string or any
non-string value (abstracted by a tag). -/
inductive PyValue where
  | pyStr (s : List Char)
  | pyOther (tag : Nat)
deriving DecidableEq, Repr

/-- The report summary built by `main`. -/
inductive EngineSummary where
  | clean (message : String) (fileExtension : String) (totalIssues : Nat)
  | stats (totalIssues : Nat) (byRule : String → Nat) (fileExtension : String)

/-- The payload built by `main` (before JSON encoding); the constant
provenance fields (`analysis_source`, `metadata`, both always
`"static_analyzer"`/`"sql_rule_engine"`) carry no information and are not
modelled. -/
inductive EngineReport where
  | notString (summary : String)
  | report (summary : EngineSummary) (issues : List Record)

/-- `main` of `sql_rule_engine.py`. -/
def engineMain : PyValue → EngineReport
  | .pyOther _ => .notString "输入不是字符串。"
  | .pyStr sql =>
      let issues := engineIssues sql
      if issues = [] then .report (.clean "代码正常" ".sql" 0) []
      else .report (.stats (totalIssues issues) (byRuleMap issues) ".sql") issues

/-- Issues list of an engine report. -/
def EngineReport.issuesOf : EngineReport → List Record
  | .notString _ => []
  | .report _ is => is

/-- One issue dict of `sqlStaticAnalyzer._add_issue` (no aggregation in
this file; issues are appended flat). -/
structure AIssue where
  rule_id : String
  severity : String
  message : List Char
  obj : List Char
  line : Nat
  column : Nat
  snippet : List Char
  evidence : List Char
deriving DecidableEq, Repr

/-- `sqlStaticAnalyzer._add_issue`: build one issue dict (evidence is
`evidence or snippet`, truncated to 300 characters). -/
def mkAIssue (sql : List Char) (rule : String) (msg : List Char) (pos : Nat)
    (evidence : List Char := []) (severity : String := "ERROR")
    (obj : List Char := []) : AIssue where
  rule_id := rule
  severity := severity
  message := msg
  obj := obj
  line := idxToLine sql pos
  column := idxToCol sql pos
  snippet := lineSnippet sql pos
  evidence := (if evidence = [] then lineSnippet sql pos else evidence).take 300

/-- `sqlStaticAnalyzer._check_cjk`. -/
def aCheckCjk (sql : List Char) : List AIssue :=
  match findCharIdx isCJK (maskCommentsAndStrings sql) 0 with
  | some ic =>
      [mkAIssue sql "R1_CJK_NAME"
        "檢測到中文/非 ASCII 字符（疑似用於對象/欄位命名），請改用英文命名。".toList
        ic.1 (['.', '.', '.'] ++ [ic.2] ++ ['.', '.', '.'])]
  | none => []

/-- `sqlStaticAnalyzer._check_naming_prefixes` (it scans the raw SQL, not
the masked text, and its class lacks the double quote). -/
def aCheckNaming (sql : List Char) : List AIssue :=
  ((finditerAll (tryCreateTable analyzerNameChar) sql).flatMap fun im =>
    let name := lastIdentifier im.2.name
    (if !startsWithL "T_".toList (upperL name) then
       [mkAIssue sql "R2_PREFIX_TABLE"
         ("表名需以 T_ 開頭：發現 ".toList ++ name) im.1
         (slice sql im.1 (im.1 + im.2.len)) "ERROR" name]
     else []) ++
    (if startsWithL "TMP_TMP_TMP".toList (upperL name) then
       [mkAIssue sql "R3_TMP_TRIPLE"
         ("臨時表命名不得使用 TMP_TMP_TMP 前綴：發現 ".toList ++ name) im.1
         (slice sql im.1 (im.1 + im.2.len)) "ERROR" name]
     else [])) ++
  ((finditerAll (tryCreateObj2 "VIEW".toList analyzerNameChar) sql).filterMap
    fun im =>
      let name := lastIdentifier im.2.name
      if !startsWithL "V_".toList (upperL name) then
        some (mkAIssue sql "R2_PREFIX_VIEW"
          ("視圖名需以 V_ 開頭：發現 ".toList ++ name) im.1
          (slice sql im.1 (im.1 + im.2.len)) "ERROR" name)
      else none) ++
  ((finditerAll (tryCreateObj2 "PROCEDURE".toList analyzerNameChar) sql).filterMap
    fun im =>
      let name := lastIdentifier im.2.name
      if !startsWithL "P_".toList (upperL name) then
        some (mkAIssue sql "R2_PREFIX_PROC"
          ("存儲過程需以 P_ 開頭：發現 ".toList ++ name) im.1
          (slice sql im.1 (im.1 + im.2.len)) "ERROR" name)
      else none) ++
  ((finditerAll (tryCreateObj2 "FUNCTION".toList analyzerNameChar) sql).filterMap
    fun im =>
      let name := lastIdentifier im.2.name
      if !startsWithL "F_".toList (upperL name) then
        some (mkAIssue sql "R2_PREFIX_FUNC"
          ("函數名需以 F_ 開頭：發現 ".toList ++ name) im.1
          (slice sql im.1 (im.1 + im.2.len)) "ERROR" name)
      else none)

/-- `sqlStaticAnalyzer._check_delete_full_table` (scans the raw SQL). -/
def aCheckDelete (sql : List Char) : List AIssue :=
  (finditerAll (tryDelete analyzerNameChar) sql).filterMap fun im =>
    if whereInTail im.2.tail then none
    else
      some (mkAIssue sql "R4_DELETE_NO_WHERE"
        ("檢測到對表 ".toList ++ lastIdentifier im.2.name ++
          " 的全表刪除（DELETE 無 WHERE）。請使用 TRUNCATE。".toList) im.1
        (slice sql im.1 (im.1 + im.2.len)) "ERROR" (lastIdentifier im.2.name))

/-- Terminator alternation of `_slice_from_clauses`:
`\bWHERE\b|\bGROUP\b|\bORDER\b|\bHAVING\b|\bLIMIT\b|;`. -/
def sliceStopTest (prev : Option Char) (l : List Char) : Bool :=
  wordAtCI "WHERE".toList prev l || wordAtCI "GROUP".toList prev l ||
  wordAtCI "ORDER".toList prev l || wordAtCI "HAVING".toList prev l ||
  wordAtCI "LIMIT".toList prev l ||
  (match l with | ';' :: _ => true | _ => false)

/-- `_slice_from_clauses`: for every `\bFROM\b` occurrence, the fragment
from the end of the keyword to the first terminator (or end of text),
returned as `(start, end, fragment)`. -/
def fromSlices (sql : List Char) : List (Nat × Nat × List Char) :=
  (finditerAll (tryWord "FROM".toList) sql).map fun im =>
    let start := im.1 + 4
    let suffix := sql.drop start
    let j :=
      match searchPos sliceStopTest none suffix with
      | some j => j
      | none => suffix.length
    (start, start + j, suffix.take j)

/-- Whether a FROM-clause fragment triggers `R5_FROM_COMMA`: it contains a
comma and no `\bJOIN\b`. -/
def fromCommaQual (frag : List Char) : Bool :=
  frag.contains ',' && !(searchPos (wordAtCI "JOIN".toList) none frag).isSome

/-- The `R5_FROM_COMMA` issue reported for a qualifying FROM slice. -/
def fromCommaIssue (sql : List Char) (sl : Nat × Nat × List Char) : AIssue :=
  mkAIssue sql "R5_FROM_COMMA"
    "FROM 子句使用逗號進行隱式連接，容易產生笛卡兒積。請使用顯式 JOIN ... ON。".toList
    sl.1 (stripWs sl.2.2)

/-- Lookahead alternation of the JOIN-segment regex, including `$` (end of
text handled by `scanStop`, and `$` also matches before one final
newline). -/
def joinStopTest (prev : Option Char) (l : List Char) : Bool :=
  wordAtCI "JOIN".toList prev l || sliceStopTest prev l ||
  (match l with | ['\n'] => true | _ => false)

/-- Match data of the JOIN-segment regex. -/
structure JoinM where
  len : Nat
  seg : List Char
deriving DecidableEq, Repr

/-- `\bJOIN\b(?P<segment>.*?)(?=\bJOIN\b|\bWHERE\b|...|;|$)` (DOTALL). -/
def tryJoinSeg (prev : Option Char) (l : List Char) : Option (Nat × JoinM) :=
  if wordAtCI "JOIN".toList prev l then
    let rest := l.drop 4
    let j := scanStop joinStopTest ((l.take 4).getLast?) rest
    some (4 + j, ⟨4 + j, rest.take j⟩)
  else none

/-- `\bON\b|\bUSING\b|\bNATURAL\b|\bCROSS\b` searched in a JOIN segment. -/
def joinOnTest (prev : Option Char) (l : List Char) : Bool :=
  wordAtCI "ON".toList prev l || wordAtCI "USING".toList prev l ||
  wordAtCI "NATURAL".toList prev l || wordAtCI "CROSS".toList prev l

/-- The `R5_JOIN_NO_ON` issue reported for a JOIN segment. -/
def joinNoOnIssue (sql : List Char) (im : Nat × JoinM) : AIssue :=
  mkAIssue sql "R5_JOIN_NO_ON"
    "出現 JOIN 但未檢測到 ON/USING/NATURAL（可能導致笛卡兒積或語義不清）。".toList
    im.1 (stripWs ("JOIN".toList ++ im.2.seg))

/-- `sqlStaticAnalyzer._check_cartesian`. -/
def aCheckCartesian (sql : List Char) : List AIssue :=
  ((fromSlices sql).filterMap fun sl =>
    if fromCommaQual sl.2.2 then some (fromCommaIssue sql sl) else none) ++
  ((finditerAll tryJoinSeg sql).filterMap fun im =>
    if (searchPos joinOnTest none im.2.seg).isSome then none
    else some (joinNoOnIssue sql im))

/-- The flat issue list of `analyse` for a string input, in detector
order. -/
def analyzerIssues (sql : List Char) : List AIssue :=
  aCheckCjk sql ++ aCheckNaming sql ++ aCheckDelete sql ++ aCheckCartesian sql

/-- The summary of an `analyse` report. -/
inductive AnalyzerSummary where
  | msg (s : String)
  | stats (totalIssues : Nat) (byRule : String → Nat)

/-- The report returned by `analyse`. -/
structure AReport where
  summary : AnalyzerSummary
  issues : List AIssue

/-- `by_rule` accumulation of `analyse` (no stripping here). -/
def byRuleA (issues : List AIssue) : String → Nat :=
  issues.foldl (fun m i => bumpRule m i.rule_id) (fun _ => 0)

/-- `analyse` of `sqlStaticAnalyzer.py`. -/
def analyse : PyValue → AReport
  | .pyOther _ => ⟨.msg "輸入不是字符串。", []⟩
  | .pyStr sql =>
      let issues := analyzerIssues sql
      if issues = [] then ⟨.msg "代碼正常", []⟩
      else ⟨.stats issues.length (byRuleA issues), issues⟩

theorem hasSubL_append_of_right (pat a b : List Char)
    (h : hasSubL pat b = true) : hasSubL pat (a ++ b) = true := by
  induction a with
  | nil => simpa using h
  | cons c r ih => simp [hasSubL, ih]

/-- C5: for every DELETE match of `_check_delete_full_table` whose `[^;]*`
tail contains no `WHERE` keyword, the detector emits an ERROR event for
`RULE_16_DELETE_NO_WHERE` at the match position whose object is the table
identifier and whose message recommends TRUNCATE; on the concrete input
`DELETE FROM T_USER;` the whole analysis produces exactly one aggregated
record, for that rule with object `T_USER`, and on
`DELETE FROM T_USER WHERE ID_USER = 1;` no delete-related issue is
produced. -/
theorem c5_delete_without_where (sql : List Char) :
    (∀ im ∈ deleteMatches (maskBlockComments sql),
      whereInTail im.2.tail = false →
        ∃ e ∈ checkDeleteEvents sql,
          e.rule = "RULE_16_DELETE_NO_WHERE" ∧ e.severity = "ERROR" ∧
          e.obj = lastIdentifier im.2.name ∧
          hasSubL "TRUNCATE".toList e.msg = true ∧ e.pos = im.1) ∧
    (engineIssues "DELETE FROM T_USER;".toList).map
        (fun r => (r.rule_ids, r.obj)) =
      [(["RULE_16_DELETE_NO_WHERE"], "T_USER".toList)] ∧
    (∀ r ∈ engineIssues "DELETE FROM T_USER WHERE ID_USER = 1;".toList,
      "RULE_16_DELETE_NO_WHERE" ∉ r.rule_ids) := by
  refine ⟨?_, by decide, by decide⟩
  intro im him hw
  refine ⟨{ rule := "RULE_16_DELETE_NO_WHERE",
            msg := "检测到对表 ".toList ++ lastIdentifier im.2.name ++
              " 的全表删除（DELETE 无 WHERE）。请使用 TRUNCATE。".toList,
            pos := im.1,
            evidence := slice (maskBlockComments sql) im.1 (im.1 + im.2.len),
            obj := lastIdentifier im.2.name }, ?_, rfl, rfl, rfl, ?_, rfl⟩
  · unfold checkDeleteEvents
    exact List.mem_filterMap.2 ⟨im, him, by rw [hw]; rfl⟩
  · exact hasSubL_append_of_right "TRUNCATE".toList "检测到对表 ".toList _
      (hasSubL_append_of_right "TRUNCATE".toList (lastIdentifier im.2.name)
        " 的全表删除（DELETE 无 WHERE）。请使用 TRUNCATE。".toList (by decide))

/-- Witness for C5 at the concrete input `DELETE FROM T_USER;`: the single
DELETE match (starting at offset 0, table token `T_USER`, empty tail) has
no WHERE and yields the RULE_16 event. -/
theorem c5_delete_without_where_witness :
    ∃ e ∈ checkDeleteEvents "DELETE FROM T_USER;".toList,
      e.rule = "RULE_16_DELETE_NO_WHERE" ∧ e.severity = "ERROR" ∧
      e.obj = lastIdentifier (0, (⟨18, "T_USER".toList, []⟩ : DeleteM)).2.name ∧
      hasSubL "TRUNCATE".toList e.msg = true ∧
      e.pos = (0, (⟨18, "T_USER".toList, []⟩ : DeleteM)).1 :=
  (c5_delete_without_where "DELETE FROM T_USER;".toList).1
    (0, ⟨18, "T_USER".toList, []⟩) (by decide) (by decide)

theorem fromCommaIssue_rule (sql : List Char) (sl : Nat × Nat × List Char) :
    (fromCommaIssue sql sl).rule_id = "R5_FROM_COMMA" := rfl

theorem joinNoOnIssue_rule (sql : List Char) (im : Nat × JoinM) :
    (joinNoOnIssue sql im).rule_id = "R5_JOIN_NO_ON" := rfl

theorem filter_fromComma_part (sql : List Char) :
    ∀ l : List (Nat × Nat × List Char),
      ((l.filterMap fun sl =>
          if fromCommaQual sl.2.2 then some (fromCommaIssue sql sl)
          else none).filter (fun i => i.rule_id = "R5_FROM_COMMA")) =
        (l.filter (fun sl => fromCommaQual sl.2.2)).map (fromCommaIssue sql) := by
  intro l
  induction l with
  | nil => rfl
  | cons sl rest ih =>
      by_cases hq : fromCommaQual sl.2.2 = true
      · simp only [List.filterMap_cons, hq, if_true, List.filter_cons,
          fromCommaIssue_rule, List.map_cons]
        simp [ih, hq]
      · have hq' : fromCommaQual sl.2.2 = false := by simpa using hq
        simp [List.filterMap_cons, hq', ih]

theorem filter_joinNoOn_part (sql : List Char) :
    ∀ l : List (Nat × JoinM),
      ((l.filterMap fun im =>
          if (searchPos joinOnTest none im.2.seg).isSome then none
          else some (joinNoOnIssue sql im)).filter
        (fun i => i.rule_id = "R5_FROM_COMMA")) = [] := by
  intro l
  induction l with
  | nil => rfl
  | cons im rest ih =>
      by_cases hs : (searchPos joinOnTest none im.2.seg).isSome = true
      · simp [List.filterMap_cons, hs, ih]
      · have hs' : (searchPos joinOnTest none im.2.seg).isSome = false := by
          simpa using hs
        simp [List.filterMap_cons, hs', List.filter_cons, joinNoOnIssue_rule, ih]

/-- C6: the `R5_FROM_COMMA` issues of `_check_cartesian` are exactly one
issue per FROM clause (the text from a `FROM` keyword to the next
WHERE/GROUP/ORDER/HAVING/LIMIT/`;` or end of text) that contains a comma
and no JOIN keyword, positioned at that clause; the concrete comma-join
query yields exactly one such issue and its explicit-JOIN rewrite yields
none. -/
theorem c6_implicit_cross_join (sql : List Char) :
    ((aCheckCartesian sql).filter (fun i => i.rule_id = "R5_FROM_COMMA")) =
      ((fromSlices sql).filter (fun sl => fromCommaQual sl.2.2)).map
        (fromCommaIssue sql) ∧
    ((analyse (.pyStr
        "SELECT * FROM T_A, T_B WHERE T_A.ID = T_B.ID;".toList)).issues).map
        (fun r => (r.rule_id, r.line, r.column)) =
      [("R5_FROM_COMMA", 1, 14)] ∧
    (analyse (.pyStr
        "SELECT * FROM T_A JOIN T_B ON T_A.ID = T_B.ID;".toList)).issues = [] := by
  refine ⟨?_, by decide, by decide⟩
  unfold aCheckCartesian
  rw [List.filter_append, filter_fromComma_part, filter_joinNoOn_part,
    List.append_nil]

/-- C7 counterexample: the claim says the `=` of a comparison operator
`<=` is never flagged, but on the procedure body `SET A<=1;` the
right-spacing regex `=(?!=)(?![\s=])` flags position 33, which is the `=`
of the `<=` at positions 32-33. -/
theorem c7_counterexample :
    (checkProcedureRulesEvents
        "CREATE PROCEDURE P_X BEGIN SET A<=1; END".toList
        (maskCommentsAndStrings
          "CREATE PROCEDURE P_X BEGIN SET A<=1; END".toList)).map
        (fun e => (e.rule, e.pos)) =
      [("RULE_14_EQUAL_SPACING_RIGHT", 33)] ∧
    "CREATE PROCEDURE P_X BEGIN SET A<=1; END".toList.get? 32 = some '<' ∧
    "CREATE PROCEDURE P_X BEGIN SET A<=1; END".toList.get? 33 = some '=' :=
  ⟨by decide, by decide, by decide⟩

theorem eqLeftOk_iff (stmt : List Char) (i : Nat) :
    eqLeftOk stmt i = true ↔
      stmt.get? i = some '=' ∧ stmt.get? (i + 1) ≠ some '=' ∧
        (i = 0 ∨ ∃ c, stmt.get? (i - 1) = some c ∧
          isSpaceChar c = false ∧ c ≠ '<' ∧ c ≠ '>' ∧ c ≠ '=' ∧ c ≠ '!') := by
  unfold eqLeftOk
  simp only [Bool.and_eq_true, decide_eq_true_eq, Bool.not_eq_true',
    decide_eq_false_iff_not]
  constructor
  · rintro ⟨⟨hg, hm⟩, hn⟩
    refine ⟨hg, hn, ?_⟩
    cases i with
    | zero => exact Or.inl rfl
    | succ j =>
        right
        cases hp : stmt.get? (j + 1 - 1) with
        | none =>
            exfalso
            have h1 : stmt.length ≤ j := by
              have := List.get?_eq_none.1 (by simpa using hp)
              simpa using this
            have h2 : j + 1 < stmt.length := by
              by_contra hcon
              have := List.get?_eq_none.2 (Nat.le_of_not_lt hcon)
              rw [this] at hg
              cases hg
            omega
        | some c =>
            rw [hp] at hm
            refine ⟨c, rfl, ?_⟩
            simp only [Bool.not_eq_true', Bool.or_eq_false_iff,
              decide_eq_false_iff_not] at hm
            exact ⟨hm.1.1.1.1, hm.1.1.1.2, hm.1.1.2, hm.1.2, hm.2⟩
  · rintro ⟨hg, hn, hor⟩
    refine ⟨⟨hg, ?_⟩, hn⟩
    rcases hor with rfl | ⟨c, hp, hs, h1, h2, h3, h4⟩
    · rfl
    · cases i with
      | zero => rfl
      | succ j =>
          rw [hp]
          simp [hs, h1, h2, h3, h4]

theorem eqRightOk_iff (stmt : List Char) (i : Nat) :
    eqRightOk stmt i = true ↔
      stmt.get? i = some '=' ∧
        (stmt.get? (i + 1) = none ∨ ∃ c, stmt.get? (i + 1) = some c ∧
          c ≠ '=' ∧ isSpaceChar c = false) := by
  unfold eqRightOk
  simp only [Bool.and_eq_true, decide_eq_true_eq]
  constructor
  · rintro ⟨hg, hm⟩
    refine ⟨hg, ?_⟩
    cases hp : stmt.get? (i + 1) with
    | none => exact Or.inl rfl
    | some c =>
        rw [hp] at hm
        simp only [Bool.not_eq_true', Bool.or_eq_false_iff,
          decide_eq_false_iff_not] at hm
        exact Or.inr ⟨c, rfl, hm.1, hm.2⟩
  · rintro ⟨hg, hor⟩
    refine ⟨hg, ?_⟩
    rcases hor with hp | ⟨c, hp, h1, h2⟩
    · rw [hp]
    · rw [hp]
      simp [h1, h2]

theorem mem_eqLeftPositions (stmt : List Char) (i : Nat) :
    i ∈ eqLeftPositions stmt ↔ eqLeftOk stmt i = true := by
  unfold eqLeftPositions
  rw [List.mem_filter, List.mem_range]
  constructor
  · rintro ⟨_, h⟩
    simpa using h
  · intro h
    refine ⟨?_, by simpa using h⟩
    by_contra hcon
    have hnone : stmt.get? i = none := List.get?_eq_none.2 (Nat.le_of_not_lt hcon)
    unfold eqLeftOk at h
    rw [hnone] at h
    simp at h

theorem mem_eqRightPositions (stmt : List Char) (i : Nat) :
    i ∈ eqRightPositions stmt ↔ eqRightOk stmt i = true := by
  unfold eqRightPositions
  rw [List.mem_filter, List.mem_range]
  constructor
  · rintro ⟨_, h⟩
    simpa using h
  · intro h
    refine ⟨?_, by simpa using h⟩
    by_contra hcon
    have hnone : stmt.get? i = none := List.get?_eq_none.2 (Nat.le_of_not_lt hcon)
    unfold eqRightOk at h
    rw [hnone] at h
    simp at h

/-- C7 amended: within an extracted procedure statement, an `=` is flagged
by the LEFT spacing warning exactly when it is not followed by `=` and is
at the start or preceded by a character that is neither whitespace nor one
of `<`, `>`, `=`, `!`; and it is flagged by the RIGHT spacing warning
exactly when it is not followed by `=` or whitespace (end of statement
included).  The comparison operators `<=`, `>=`, `!=`, `==` are exempt
only from the left-side check: written without a following space their `=`
is still flagged by the right-side rule.  Every flagged position yields a
WARNING event of `_check_procedure_rules` at the corresponding absolute
offset. -/
theorem c7_amended_equal_spacing (stmt : List Char) (i : Nat) :
    (i ∈ eqLeftPositions stmt ↔
      stmt.get? i = some '=' ∧ stmt.get? (i + 1) ≠ some '=' ∧
        (i = 0 ∨ ∃ c, stmt.get? (i - 1) = some c ∧
          isSpaceChar c = false ∧ c ≠ '<' ∧ c ≠ '>' ∧ c ≠ '=' ∧ c ≠ '!')) ∧
    (i ∈ eqRightPositions stmt ↔
      stmt.get? i = some '=' ∧
        (stmt.get? (i + 1) = none ∨ ∃ c, stmt.get? (i + 1) = some c ∧
          c ≠ '=' ∧ isSpaceChar c = false)) ∧
    (∀ sql im, im ∈ engineProcMatches (maskCommentsAndStrings sql) →
      stmt = extractStatement sql (maskCommentsAndStrings sql) im.1 →
      (∀ j ∈ eqLeftPositions stmt,
        ∃ e ∈ checkProcedureRulesEvents sql (maskCommentsAndStrings sql),
          e.rule = "RULE_14_EQUAL_SPACING_LEFT" ∧ e.severity = "WARNING" ∧
          e.pos = im.1 + j) ∧
      (∀ j ∈ eqRightPositions stmt,
        ∃ e ∈ checkProcedureRulesEvents sql (maskCommentsAndStrings sql),
          e.rule = "RULE_14_EQUAL_SPACING_RIGHT" ∧ e.severity = "WARNING" ∧
          e.pos = im.1 + j)) := by
  refine ⟨(mem_eqLeftPositions stmt i).trans (eqLeftOk_iff stmt i),
    (mem_eqRightPositions stmt i).trans (eqRightOk_iff stmt i), ?_⟩
  intro sql im him hstmt
  subst hstmt
  constructor
  · intro j hj
    refine ⟨{ rule := "RULE_14_EQUAL_SPACING_LEFT",
              msg := "存储过程内等号两侧需留空格。".toList,
              pos := im.1 + j,
              evidence := lineSnippet sql (im.1 + j),
              obj := lastIdentifier im.2.name,
              severity := "WARNING" }, ?_, rfl, rfl, rfl⟩
    unfold checkProcedureRulesEvents
    refine List.mem_flatMap.2 ⟨im, him, ?_⟩
    exact List.mem_append.2 (Or.inl (List.mem_append.2 (Or.inl
      (List.mem_map_of_mem _ hj))))
  · intro j hj
    refine ⟨{ rule := "RULE_14_EQUAL_SPACING_RIGHT",
              msg := "存储过程内等号两侧需留空格。".toList,
              pos := im.1 + j,
              evidence := lineSnippet sql (im.1 + j),
              obj := lastIdentifier im.2.name,
              severity := "WARNING" }, ?_, rfl, rfl, rfl⟩
    unfold checkProcedureRulesEvents
    refine List.mem_flatMap.2 ⟨im, him, ?_⟩
    exact List.mem_append.2 (Or.inl (List.mem_append.2 (Or.inr
      (List.mem_map_of_mem _ hj))))

/-- Witness for the amended C7 at the concrete procedure
`CREATE PROCEDURE P_X BEGIN SET A<=1; END`: position 33 (the `=` of
`<=`) is a right-spacing match of the extracted statement and yields the
WARNING event. -/
theorem c7_amended_equal_spacing_witness :
    ∃ e ∈ checkProcedureRulesEvents
        "CREATE PROCEDURE P_X BEGIN SET A<=1; END".toList
        (maskCommentsAndStrings
          "CREATE PROCEDURE P_X BEGIN SET A<=1; END".toList),
      e.rule = "RULE_14_EQUAL_SPACING_RIGHT" ∧ e.severity = "WARNING" ∧
      e.pos = (0, (⟨20, 17, "P_X".toList⟩ : CreateM)).1 + 33 :=
  ((c7_amended_equal_spacing
      (extractStatement "CREATE PROCEDURE P_X BEGIN SET A<=1; END".toList
        (maskCommentsAndStrings
          "CREATE PROCEDURE P_X BEGIN SET A<=1; END".toList) 0) 33).2.2
    "CREATE PROCEDURE P_X BEGIN SET A<=1; END".toList
    (0, ⟨20, 17, "P_X".toList⟩) (by decide) rfl).2 33 (by decide)

/-- C8: on the minimal well-formed script
`CREATE TABLE T_USER (ID_USER VARCHAR(10) COMMENT 'id') COMMENT 'users';`
no detector of either engine emits any issue: `main` returns the clean
summary with an empty issue list, and `analyse` returns its clean
message with an empty issue list. -/
theorem c8_clean_minimal_script :
    engineMain (.pyStr
        "CREATE TABLE T_USER (ID_USER VARCHAR(10) COMMENT 'id') COMMENT 'users';".toList) =
      .report (.clean "代码正常" ".sql" 0) [] ∧
    analyse (.pyStr
        "CREATE TABLE T_USER (ID_USER VARCHAR(10) COMMENT 'id') COMMENT 'users';".toList) =
      ⟨.msg "代碼正常", []⟩ :=
  ⟨rfl, rfl⟩

/-- C9: both entry points are total functions, and on every non-string
input they return the degenerate report (an explanatory message and an
empty issue list) instead of failing. -/
theorem c9_non_string_input (v : PyValue) (h : ∀ s, v ≠ PyValue.pyStr s) :
    engineMain v = .notString "输入不是字符串。" ∧
      analyse v = ⟨.msg "輸入不是字符串。", []⟩ := by
  cases v with
  | pyStr s => exact absurd rfl (h s)
  | pyOther t => exact ⟨rfl, rfl⟩

/-- Witness for C9 at a concrete non-string value. -/
theorem c9_non_string_input_witness :
    engineMain (.pyOther 0) = .notString "输入不是字符串。" ∧
      analyse (.pyOther 0) = ⟨.msg "輸入不是字符串。", []⟩ :=
  c9_non_string_input (.pyOther 0) (fun _ h => by cases h)

end SqlReview
